import Mathlib

/-!
Verification development for the tubular ng-widgets editors
(digit-sequence editor engine, angle editor, time editor, bounds limit).

The TypeScript sources are shallowly embedded:
 * JavaScript numbers are modelled as `Int` where the source only ever holds
   integral values (digit cells, `intAngle`, millisecond counts), and as `Rat`
   where fractional values arise (angle degrees, pixel offsets).  All the
   arithmetic relevant to the claims stays inside ranges where IEEE doubles
   are exact, so exact `Int`/`Rat` arithmetic is a faithful model.
 * `NaN` propagation through arithmetic is modelled with `Option`.
 * Mutation of component state is modelled by explicit state passing:
   each method becomes a function `State → ... → State`.
 * The error/warning/confirm "flash" feedback and the value-change callback
   are modelled as event flags recorded in the state.
 * `timer().subscribe(...)` (a task deferred to a later macrotask) is modelled
   by recording the deferred action in a `pending` list; the synchronous
   method itself never performs the deferred mutation.
-/

namespace TubularWidgets

/-! ## Helpers from @tubular/math (external dependency, modelled from its
documented semantics: `trunc` truncates toward zero, `ceil`/`floor` as usual,
`mod` returns a result with the sign of the divisor, `mod2` returns a value
in `[-y/2, y/2)` congruent to `x` modulo `y`, `sign` is -1/0/+1). -/

/-- JavaScript / @tubular-math `trunc`: truncation toward zero. -/
def jsTrunc (q : ℚ) : ℤ := if 0 ≤ q then ⌊q⌋ else -⌊-q⌋

/-- @tubular-math `ceil` on rationals. -/
def jsCeil (q : ℚ) : ℤ := ⌈q⌉

/-- @tubular-math `sign`. -/
def jsSign (x : ℤ) : ℤ := if x < 0 then -1 else if 0 < x then 1 else 0

/-- @tubular-math `mod` for a positive divisor: result in `[0, n)`.
(`Int.emod` has exactly this behavior for `n > 0`.) -/
def tmod (a n : ℤ) : ℤ := a % n

/-- @tubular-math `mod2` for a positive even divisor: the representative of
`a` modulo `n` lying in `[-n/2, n/2)`. -/
def tmod2 (a n : ℤ) : ℤ := (a + n / 2) % n - n / 2

theorem tmod2_emod (a n : ℤ) : tmod2 a n % n = a % n := by
  unfold tmod2
  calc ((a + n / 2) % n - n / 2) % n
      = ((a + n / 2) % n % n - n / 2 % n) % n := Int.sub_emod _ _ _
    _ = ((a + n / 2) % n - n / 2 % n) % n := by rw [Int.emod_emod_of_dvd _ dvd_rfl]
    _ = (a + n / 2 - n / 2) % n := (Int.sub_emod _ _ _).symm
    _ = a % n := by ring_nf

theorem tmod2_range (a n : ℤ) (hn : 0 < n) :
    -(n / 2) ≤ tmod2 a n ∧ tmod2 a n < n - n / 2 := by
  unfold tmod2
  have h1 : 0 ≤ (a + n / 2) % n := Int.emod_nonneg _ (by omega)
  have h2 : (a + n / 2) % n < n := Int.emod_lt_of_pos _ hn
  omega

/-! ## Sequence items

`SequenceItemInfo` (digit-sequence-editor.directive.ts): each item carries a
committed `value` (a digit or a token string), transient swipe-preview slots
`swipeAbove`/`swipeBelow`, and layout/edit flags.  A JS value that is
`string | number` is modelled by `IVal`; an unset (`null`/`undefined`)
preview slot by `Option`. -/

inductive IVal where
  | num (n : ℤ)
  | str (s : String)
deriving DecidableEq, Repr

/-- `isNumber(value)` -/
def IVal.isNum : IVal → Bool
  | .num _ => true
  | .str _ => false

structure Item where
  value : IVal
  swipeAbove : Option IVal := none
  swipeBelow : Option IVal := none
  altValue : Option String := none
  altSwipeAbove : Option String := none
  altSwipeBelow : Option String := none
  sizer : Option String := none
  editable : Bool := false
  hidden : Bool := false
  sign : Bool := false
  digit : Bool := false
  static : Bool := false
  index : ℤ := 0
deriving DecidableEq, Repr

/-- Which slot of an item a write refers to (the `field` string argument
threaded through `updateDigits`/`setDigits`). -/
inductive Slot where
  | value
  | swipeAbove
  | swipeBelow
deriving DecidableEq, Repr

def Item.getSlot (it : Item) : Slot → Option IVal
  | .value => some it.value
  | .swipeAbove => it.swipeAbove
  | .swipeBelow => it.swipeBelow

def Item.setSlot (it : Item) (s : Slot) (v : IVal) : Item :=
  match s with
  | .value => { it with value := v }
  | .swipeAbove => { it with swipeAbove := some v }
  | .swipeBelow => { it with swipeBelow := some v }

/-- The `alt_value` / `alt_swipeAbove` / `alt_swipeBelow` companion of a
slot (alternate-numbering rendering). -/
def Item.setAlt (it : Item) (s : Slot) (v : Option String) : Item :=
  match s with
  | .value => { it with altValue := v }
  | .swipeAbove => { it with altSwipeAbove := v }
  | .swipeBelow => { it with altSwipeBelow := v }

def Item.getAlt (it : Item) : Slot → Option String
  | .value => it.altValue
  | .swipeAbove => it.altSwipeAbove
  | .swipeBelow => it.altSwipeBelow

/-- In-place update of the element at one position (other positions and the
list length are untouched); out-of-range positions leave the list as is. -/
def modifyNth {α : Type} (f : α → α) : List α → ℕ → List α
  | [], _ => []
  | a :: l, 0 => f a :: l
  | a :: l, n + 1 => a :: modifyNth f l n

/-- `this.items[i][field] = v`.  A negative index is a no-op at the level of
array elements (JS would create a plain object property). -/
def writeSlot (items : List Item) (i : ℤ) (s : Slot) (v : IVal) : List Item :=
  if 0 ≤ i then modifyNth (fun it => it.setSlot s v) items i.toNat else items

theorem modifyNth_length {α : Type} (f : α → α) (l : List α) (n : ℕ) :
    (modifyNth f l n).length = l.length := by
  induction l generalizing n with
  | nil => rfl
  | cons a l ih => cases n <;> simp [modifyNth, ih]

theorem modifyNth_get?_ne {α : Type} (f : α → α) (l : List α) (n j : ℕ)
    (h : j ≠ n) : (modifyNth f l n).get? j = l.get? j := by
  induction l generalizing n j with
  | nil => rfl
  | cons a l ih =>
      cases n with
      | zero => cases j with
        | zero => exact absurd rfl h
        | succ j => simp [modifyNth]
      | succ n => cases j with
        | zero => simp [modifyNth]
        | succ j => simpa [modifyNth] using ih n j (by omega)

theorem modifyNth_get?_eq {α : Type} (f : α → α) (l : List α) (n : ℕ)
    (h : n < l.length) : (modifyNth f l n).get? n = f <$> l.get? n := by
  induction l generalizing n with
  | nil => simp at h
  | cons a l ih =>
      cases n with
      | zero => simp [modifyNth]
      | succ n => simpa [modifyNth] using ih n (by simpa using h)

theorem modifyNth_map_of_preserve {α β : Type} {g : α → β} (f : α → α)
    (hf : ∀ x, g (f x) = g x) (l : List α) (n : ℕ) :
    (modifyNth f l n).map g = l.map g := by
  induction l generalizing n with
  | nil => rfl
  | cons a l ih => cases n <;> simp [modifyNth, hf, ih]

theorem writeSlot_length (items : List Item) (i : ℤ) (s : Slot) (v : IVal) :
    (writeSlot items i s v).length = items.length := by
  unfold writeSlot
  split
  · exact modifyNth_length _ _ _
  · rfl

theorem writeSlot_value_of_ne_value (items : List Item) (i : ℤ) (s : Slot)
    (v : IVal) (hs : s ≠ Slot.value) :
    (writeSlot items i s v).map (·.value) = items.map (·.value) := by
  unfold writeSlot
  split
  · refine modifyNth_map_of_preserve _ (fun x => ?_) _ _
    cases s with
    | value => exact absurd rfl hs
    | swipeAbove => rfl
    | swipeBelow => rfl
  · rfl

/-! ## getDigits / setDigits (digit-sequence-editor.directive.ts 560-582)

```
protected getDigits(index: number, count: number, defaultValue = 0): number {
  if (index < 0) return defaultValue;
  let value = 0;
  for (let i = 0; i < count; ++i)
    value = value * 10 + (this.items[index + i].value as number);
  return value;
}

protected setDigits(index: number, count: number, value: number, field = 'value'): void {
  if (index < 0) return;
  for (let i = count - 1; i >= 0; --i) {
    const digit = value % 10;
    this.items[index + i][field] = floor(digit);
    value = (value - digit) / 10;
  }
}
```

`getDigits` reads `.value as number`; if the cell holds a string the JS
arithmetic would produce `NaN`, which we model by `Option` (`none` = NaN);
an out-of-bounds read (`undefined`) likewise poisons the result.
The `getDigits` loop is modelled by a fold over `i = 0 .. count-1`;
the `setDigits` loop (which runs `i = count-1` down to `0`, dividing the
value by 10 after each write) by recursion writing position `count-1`
first. -/

/-- The numeric reading of one item's committed value
(`this.items[j].value as number`); a string or a missing item poisons the
arithmetic (NaN / undefined), hence `none`. -/
def cellNum (items : List Item) (j : ℕ) : Option ℤ :=
  match items.get? j with
  | some it => match it.value with
               | .num k => some k
               | .str _ => none
  | none => none

/-- One step of the `getDigits` accumulation, `value = value * 10 + cell`,
with NaN (`none`) propagation. -/
def stepAcc : Option ℤ → Option ℤ → Option ℤ
  | some a, some c => some (a * 10 + c)
  | _, _ => none

def getDigitsLoop (items : List Item) (index : ℕ) : ℕ → Option ℤ → Option ℤ
  | 0, acc => acc
  | n + 1, acc =>
      getDigitsLoop items (index + 1) n (stepAcc acc (cellNum items index))

def getDigits (items : List Item) (index : ℤ) (count : ℕ)
    (defaultValue : ℤ := 0) : Option ℤ :=
  if index < 0 then some defaultValue
  else getDigitsLoop items index.toNat count (some 0)

/-- The `setDigits` loop, which runs `i = count-1` down to `0`: it first
writes `value % 10` at position `index + count - 1`, then continues with
`(value - value % 10) / 10` on the positions below. -/
def setDigitsLoop (items : List Item) (index : ℕ) (count : ℕ) (value : ℤ)
    (field : Slot) : List Item :=
  match count with
  | 0 => items
  | n + 1 =>
      setDigitsLoop (writeSlot items (index + n) field (.num (value % 10)))
        index n (value / 10) field

def setDigits (items : List Item) (index : ℤ) (count : ℕ) (value : ℤ)
    (field : Slot := Slot.value) : List Item :=
  if index < 0 then items
  else setDigitsLoop items index.toNat count value field

theorem setDigitsLoop_length (items : List Item) (index count : ℕ) (v : ℤ)
    (f : Slot) : (setDigitsLoop items index count v f).length = items.length := by
  induction count generalizing items v with
  | zero => rfl
  | succ n ih => simp [setDigitsLoop, ih, writeSlot_length]

theorem setDigitsLoop_get?_ge (items : List Item) (index count : ℕ) (v : ℤ)
    (f : Slot) (j : ℕ) (hj : index + count ≤ j) :
    (setDigitsLoop items index count v f).get? j = items.get? j := by
  induction count generalizing items v with
  | zero => rfl
  | succ n ih =>
      rw [setDigitsLoop, ih _ _ (by omega)]
      unfold writeSlot
      rw [if_pos (by positivity)]
      have : ((index : ℤ) + (n : ℤ)).toNat = index + n := by omega
      rw [this, modifyNth_get?_ne _ _ _ _ (by omega)]

/-- One unrolling at the top end: reading `count + 1` digit cells starting at
`index` is reading `count` cells and then incorporating the cell at
`index + count`. -/
theorem getDigitsLoop_snoc (items : List Item) (index count : ℕ)
    (acc : Option ℤ) :
    getDigitsLoop items index (count + 1) acc =
      stepAcc (getDigitsLoop items index count acc)
        (cellNum items (index + count)) := by
  induction count generalizing index acc with
  | zero => simp [getDigitsLoop]
  | succ n ih =>
      rw [getDigitsLoop]
      conv_rhs => rw [getDigitsLoop]
      rw [ih]
      have : index + 1 + n = index + (n + 1) := by omega
      rw [this]

theorem getDigits_setDigits_loop (count : ℕ) :
    ∀ (items : List Item) (index : ℕ) (v : ℤ), 0 ≤ v → v < 10 ^ count →
    index + count ≤ items.length →
    getDigitsLoop (setDigitsLoop items index count v Slot.value) index count
      (some 0) = some v := by
  induction count with
  | zero =>
      intro items index v hv0 hv1 _
      interval_cases v
      rfl
  | succ n ih =>
      intro items index v hv0 hv1 hlen
      rw [setDigitsLoop, getDigitsLoop_snoc]
      have hlen' : ((index : ℤ) + (n : ℤ)).toNat = index + n := by omega
      have hwlen : (writeSlot items (index + n) Slot.value
          (IVal.num (v % 10))).length = items.length := writeSlot_length _ _ _ _
      have hdiv0 : (0 : ℤ) ≤ v / 10 := by positivity
      have hdivlt : v / 10 < 10 ^ n := by
        have h10 : (10 : ℤ) ^ (n + 1) = 10 ^ n * 10 := by ring
        rw [h10] at hv1
        exact Int.ediv_lt_of_lt_mul (by norm_num) hv1
      have hlen1 : index + n ≤ (writeSlot items (index + n) Slot.value
          (IVal.num (v % 10))).length := by rw [hwlen]; omega
      rw [ih _ index (v / 10) hdiv0 hdivlt hlen1]
      have hcell : cellNum (setDigitsLoop (writeSlot items ((index : ℤ) + n)
            Slot.value (IVal.num (v % 10))) index n (v / 10) Slot.value)
            (index + n) =
          cellNum (writeSlot items ((index : ℤ) + n) Slot.value
            (IVal.num (v % 10))) (index + n) := by
        unfold cellNum
        rw [setDigitsLoop_get?_ge _ _ _ _ _ _ (le_refl _)]
      rw [hcell]
      unfold cellNum writeSlot
      rw [if_pos (by positivity), hlen']
      have hmod := modifyNth_get?_eq
        (fun it => it.setSlot Slot.value (IVal.num (v % 10))) items (index + n)
        (by omega)
      rw [hmod]
      obtain ⟨it, hit⟩ : ∃ it, items.get? (index + n) = some it := by
        have hlt : index + n < items.length := by omega
        exact ⟨items.get ⟨index + n, hlt⟩, List.get?_eq_get hlt⟩
      rw [hit]
      simp only [Option.map_some, Item.setSlot, stepAcc]
      have : v / 10 * 10 + v % 10 = v := by omega
      rw [this]

/-- **C10.** For every start index ≥ 0, every digit count, and every
non-negative integer `v < 10^count` (with the addressed digit cells actually
present in the item list), `setDigits(index, count, v)` followed by
`getDigits(index, count)` returns `v`; and for a negative index `setDigits`
is a no-op while `getDigits` returns its default value. -/
theorem getDigits_setDigits_roundTrip :
    (∀ (items : List Item) (index : ℤ) (count : ℕ) (v : ℤ),
      0 ≤ index → 0 ≤ v → v < 10 ^ count →
      index.toNat + count ≤ items.length →
      getDigits (setDigits items index count v) index count = some v) ∧
    (∀ (items : List Item) (index : ℤ) (count : ℕ) (v : ℤ) (field : Slot)
      (d : ℤ), index < 0 →
      setDigits items index count v field = items ∧
      getDigits items index count d = some d) := by
  constructor
  · intro items index count v hix hv0 hv1 hlen
    unfold getDigits setDigits
    rw [if_neg (by omega), if_neg (by omega)]
    exact getDigits_setDigits_loop count items index.toNat v hv0 hv1 hlen
  · intro items index count v field d hix
    unfold getDigits setDigits
    rw [if_pos hix, if_pos hix]
    exact ⟨rfl, rfl⟩

/-- Closed instance of the round trip: two digit cells, value 37, and the
negative-index no-op at index -1. -/
theorem getDigits_setDigits_roundTrip_witness :
    getDigits (setDigits
      [{ value := IVal.num 0, editable := true, digit := true, index := 0 },
       { value := IVal.num 0, editable := true, digit := true, index := 1 }]
      0 2 37) 0 2 = some 37 ∧
    setDigits [{ value := IVal.num 5, editable := true, digit := true }]
      (-1) 1 9 Slot.value =
      [{ value := IVal.num 5, editable := true, digit := true }] ∧
    getDigits [{ value := IVal.num 5, editable := true, digit := true }]
      (-1) 1 7 = some 7 := by
  refine ⟨?_, ?_, ?_⟩
  · exact getDigits_setDigits_roundTrip.1 _ 0 2 37 (by norm_num) (by norm_num)
      (by norm_num) (by norm_num)
  · exact (getDigits_setDigits_roundTrip.2 _ (-1) 1 9 Slot.value 7
      (by norm_num)).1
  · exact (getDigits_setDigits_roundTrip.2 _ (-1) 1 9 Slot.value 7
      (by norm_num)).2

/-! ## TimeEditorLimit (time-editor-limit.ts)

A limit is either fully resolved to an instant (`tai`/`utc` milliseconds,
`wallTime` left `undefined`) or carries a partially-specified wall time
(`wallTime`, a sparse `{ y, m, d, hrs, min, sec, millis }` record whose
trailing components may be `undefined`).

`compare(dateTime)` (lines 80-103):

```
if (this.wallTime == null) return sign(this.tai - dateTime.taiMillis);
const wt = dateTime.wallTime;
const diffs = [ this.wallTime.y - wt.y, ..., this.wallTime.millis - wt.millis ];
for (const diff of diffs) {
  if (isNaN(diff)) return 0;
  else if (diff !== 0) return sign(diff);
}
return 0;
```

`undefined - number` is `NaN` in JS, so the loop stops with 0 at the first
component the limit leaves unspecified. -/

namespace Limit

/-- A sparse wall time: `undefined` components are `none`. -/
structure SparseWT where
  y : Option ℤ := none
  m : Option ℤ := none
  d : Option ℤ := none
  hrs : Option ℤ := none
  minute : Option ℤ := none
  sec : Option ℤ := none
  millis : Option ℤ := none
deriving DecidableEq, Repr

/-- A fully resolved wall time of the `DateTime` being compared. -/
structure WallT where
  y : ℤ
  m : ℤ
  d : ℤ
  hrs : ℤ
  minute : ℤ
  sec : ℤ
  millis : ℤ
deriving DecidableEq, Repr

/-- The `for (const diff of diffs)` loop of `compare`: the first `NaN`
(= `none`, an unspecified limit component) yields 0, the first nonzero
difference yields its sign. -/
def firstDiff : List (Option ℤ) → ℤ
  | [] => 0
  | none :: _ => 0
  | some d :: rest => if d ≠ 0 then jsSign d else firstDiff rest

inductive LimitRep where
  | resolved (tai : ℤ)
  | sparse (w : SparseWT)
deriving DecidableEq, Repr

/-- `TimeEditorLimit.compare(dateTime)`; `dtTai` is `dateTime.taiMillis` and
`dtWall` is `dateTime.wallTime`. -/
def limCompare (lim : LimitRep) (dtTai : ℤ) (dtWall : WallT) : ℤ :=
  match lim with
  | .resolved tai => jsSign (tai - dtTai)
  | .sparse w =>
      firstDiff
        [w.y.map (· - dtWall.y), w.m.map (· - dtWall.m),
         w.d.map (· - dtWall.d), w.hrs.map (· - dtWall.hrs),
         w.minute.map (· - dtWall.minute), w.sec.map (· - dtWall.sec),
         w.millis.map (· - dtWall.millis)]

/-! Constructor, partial-text branch (time-editor-limit.ts lines 39-77).
For a trimmed limit string that is not numeric-like and does not end in a
letter or underscore:

```
else if (/^[\d]+$/.test(limit)) {
  this.year = dateTime.wallTime.y;
  this.wallTime = { y : this.year };
}
else {
  this.wallTime = dateTime.wallTimeSparse;
  if (!limit.includes(':')) {
    if (!/-[^-]+-/.test(limit)) this.wallTime.d = undefined;
    else if (!/[\sT]\d+$/i.test(limit)) this.wallTime.hrs = undefined;
    else this.wallTime.min = undefined;
  }
  else if (!/:[^:]+:/.test(limit)) this.wallTime.sec = undefined;
  else if (!limit.includes('.')) this.wallTime.millis = undefined;
  this.year = this.wallTime.y;
}
```

The parse `new DateTime(limit)` itself is external (@tubular/time); its
resulting `wallTimeSparse` record is therefore taken as an input
(`parsed`). The regular-expression tests are embedded as character-list
scans. -/

/-- `/^\d+$/` -/
def allDigits (s : String) : Bool :=
  s.toList ≠ [] && s.toList.all (·.isDigit)

/-- Scanner for `/-[^-]+-/` (and `/:[^:]+:/`): does the text contain the
separator, then one or more other characters, then the separator again?
`sawSep` records an earlier separator, `sawOther` a non-separator since. -/
def sepPairScan (sep : Char) : List Char → Bool → Bool → Bool
  | [], _, _ => false
  | c :: rest, sawSep, sawOther =>
      if c = sep then
        if sawSep && sawOther then true
        else sepPairScan sep rest true false
      else sepPairScan sep rest sawSep (sawSep || sawOther)

def hasSepPair (sep : Char) (s : String) : Bool :=
  sepPairScan sep s.toList false false

/-- `/[\sT]\d+$/i`: one or more digits at the end, preceded by whitespace or
`T`/`t`. -/
def endsWithTimeDigits (s : String) : Bool :=
  match s.toList.reverse with
  | c :: rest =>
      if c.isDigit then
        let rest' := rest.dropWhile (·.isDigit)
        match rest' with
        | c' :: _ => c' = ' ' || c' = '\t' || c' = 'T' || c' = 't'
        | [] => false
      else false
  | [] => false

/-- The sparse wall time a partial (non-numeric-suffix) limit string ends up
with; `parsed` is the external parser's `wallTimeSparse` for the string. -/
def limitWallTime (text : String) (parsed : SparseWT) : SparseWT :=
  if allDigits text then
    { y := parsed.y }
  else if ¬(text.toList.contains ':') then
    if ¬hasSepPair '-' text then { parsed with d := none }
    else if ¬endsWithTimeDigits text then { parsed with hrs := none }
    else { parsed with minute := none }
  else if ¬hasSepPair ':' text then { parsed with sec := none }
  else if ¬(text.toList.contains '.') then { parsed with millis := none }
  else parsed

/-- The limit built from the bound text `"2020"`: the external parser reads
it as 2020-01-01T00:00:00.000. -/
def lim2020 : SparseWT :=
  limitWallTime "2020"
    ⟨some 2020, some 1, some 1, some 0, some 0, some 0, some 0⟩

/-- The limit built from the bound text `"2020-06"`: the external parser
reads it as 2020-06-01T00:00:00.000. -/
def lim202006 : SparseWT :=
  limitWallTime "2020-06"
    ⟨some 2020, some 6, some 1, some 0, some 0, some 0, some 0⟩

theorem lim2020_eval :
    lim2020 = { y := some 2020 } := by decide

theorem lim202006_eval :
    lim202006 =
      { y := some 2020, m := some 6, d := none, hrs := some 0,
        minute := some 0, sec := some 0, millis := some 0 } := by decide

end Limit

/-- **C1 (counterexample).** With the max bound built from `"2020-06"`,
`compare` at wall time 2020-03-15T00:00 returns +1 (because the limit's
month 6 exceeds the value's month 3), not 0 as the claim states; and at
2021-01-01 it returns -1, which is not `> 0`. -/
theorem timeEditorLimit_compare_202006_counterexample :
    Limit.limCompare (.sparse Limit.lim202006) 0 ⟨2020, 3, 15, 0, 0, 0, 0⟩ ≠ 0 ∧
    ¬ 0 < Limit.limCompare (.sparse Limit.lim202006) 0 ⟨2021, 1, 1, 0, 0, 0, 0⟩ := by
  decide

/-- **C1 (amended).** A bound specified only to year granularity (`"2020"`)
makes `compare(value)` return 0 exactly when the value's year equals the
limit's year, regardless of the other components (so it is nonzero whenever
the year differs); with max = `"2020-06"`, `compare(2020-03-15T00:00)` is 0
against the min bound `"2020"` but +1 (positive, not 0) against the max
bound, and `compare(2021-01-01)` is -1 (negative, not positive) against the
max bound. -/
theorem timeEditorLimit_compare_partial :
    (∀ (tai : ℤ) (wt : Limit.WallT),
      Limit.limCompare (.sparse Limit.lim2020) tai wt = 0 ↔ wt.y = 2020) ∧
    Limit.limCompare (.sparse Limit.lim2020) 0 ⟨2020, 3, 15, 0, 0, 0, 0⟩ = 0 ∧
    Limit.limCompare (.sparse Limit.lim202006) 0 ⟨2020, 3, 15, 0, 0, 0, 0⟩ = 1 ∧
    Limit.limCompare (.sparse Limit.lim202006) 0 ⟨2021, 1, 1, 0, 0, 0, 0⟩ = -1 := by
  refine ⟨?_, by decide, by decide, by decide⟩
  intro tai wt
  rw [Limit.lim2020_eval]
  simp only [Limit.limCompare, Option.map_some, Option.map_none,
    Limit.firstDiff, jsSign]
  constructor
  · intro h
    by_contra hne
    split_ifs at h with h1 <;> omega
  · intro h
    rw [if_neg (by omega)]

/-! ## Cursor movement (digit-sequence-editor.directive.ts 1339-1377)

```
protected cursorBackward(items = this.items): void {
  let newSelection = NO_SELECTION;
  const selection = items.findIndex(i => i.index === this.selection);
  const start = (selection >= 0 ? selection : items.length);
  for (let i = start - 1; i >= 0; --i) {
    if (items[i].editable && !items[i].hidden) {
      newSelection = items[i].index;
      break;
    }
  }
  this.setSelection(newSelection);
}

protected cursorForward(items = this.items): void {
  let newSelection = -1;
  const selection = items.findIndex(i => i.index === this.selection);
  const start = (selection >= 0 ? selection : -1);
  for (let i = start + 1; i < items.length; ++i) { ... same scan ... }
  this.setSelection(newSelection);
}

protected setSelection(newSelection: number): void {
  if (newSelection >= 0) {
    if (this.selection >= 0) this.items[this.selection].selected = false;
    this.selection = newSelection;
    this.items[this.selection].selected = true;
  }
}
```

The scan list is either `this.items` (cursorForward/cursorBackward via
Backspace/space) or `this.displayItems` (cursorLeft/cursorRight), so it is
kept as an explicit argument.  `NO_SELECTION = -1`. -/

namespace Cursor

structure CItem where
  editable : Bool := false
  hidden : Bool := false
  selected : Bool := false
  index : ℤ := 0
deriving DecidableEq, Repr

structure CState where
  items : List CItem
  selection : ℤ
deriving DecidableEq, Repr

def NO_SELECTION : ℤ := -1

/-- JS `Array.findIndex`: position of the first match, or -1. -/
def findIndexAux (p : CItem → Bool) : List CItem → ℕ → ℤ
  | [], _ => -1
  | a :: l, n => if p a then n else findIndexAux p l (n + 1)

def jsFindIndex (p : CItem → Bool) (l : List CItem) : ℤ :=
  findIndexAux p l 0

/-- The forward scan loop (`for (let i = start + 1; i < items.length; ++i)`),
starting here at position `i`; reading past the end ends the loop with the
initial `newSelection = -1`.  The fuel is only a termination device; with
fuel ≥ items.length - i it never runs out before the loop would end. -/
def scanFwdAux (items : List CItem) : ℕ → ℕ → ℤ
  | 0, _ => -1
  | fuel + 1, i =>
      match items.get? i with
      | some it => if it.editable && !it.hidden then it.index
                   else scanFwdAux items fuel (i + 1)
      | none => -1

def scanFwd (items : List CItem) (i : ℕ) : ℤ :=
  scanFwdAux items (items.length + 1) i

/-- The backward scan loop (`for (let i = start - 1; i >= 0; --i)`); the
argument is `start`, i.e. the scan visits positions `start-1` down to 0. -/
def scanBack (items : List CItem) : ℕ → ℤ
  | 0 => NO_SELECTION
  | i + 1 =>
      match items.get? i with
      | some it => if it.editable && !it.hidden then it.index
                   else scanBack items i
      | none => scanBack items i

def setSelection (st : CState) (newSelection : ℤ) : CState :=
  if 0 ≤ newSelection then
    let items1 := if 0 ≤ st.selection then
        modifyNth (fun it => { it with selected := false }) st.items
          st.selection.toNat
      else st.items
    let items2 := modifyNth (fun it => { it with selected := true }) items1
      newSelection.toNat
    { items := items2, selection := newSelection }
  else st

/-- `const start = (selection >= 0 ? selection : items.length)` with
`selection = items.findIndex(i => i.index === this.selection)`. -/
def startBack (st : CState) (items : List CItem) : ℤ :=
  if 0 ≤ jsFindIndex (fun i => i.index = st.selection) items
  then jsFindIndex (fun i => i.index = st.selection) items
  else (items.length : ℤ)

/-- `const start = (selection >= 0 ? selection : -1)`. -/
def startFwd (st : CState) (items : List CItem) : ℤ :=
  if 0 ≤ jsFindIndex (fun i => i.index = st.selection) items
  then jsFindIndex (fun i => i.index = st.selection) items
  else -1

def cursorBackward (st : CState) (items : List CItem) : CState :=
  setSelection st (scanBack items (startBack st items).toNat)

def cursorForward (st : CState) (items : List CItem) : CState :=
  setSelection st (scanFwd items ((startFwd st items) + 1).toNat)

/-- A qualifying field in the sense of the spec: editable and not hidden. -/
def qualifies (it : CItem) : Bool := it.editable && !it.hidden

theorem findIndexAux_lt_or_neg (p : CItem → Bool) (l : List CItem) :
    ∀ n : ℕ, findIndexAux p l n < n + l.length ∨ findIndexAux p l n = -1 := by
  induction l with
  | nil => intro n; right; rfl
  | cons a l ih =>
      intro n
      unfold findIndexAux
      split
      · left; simp only [List.length_cons]; push_cast; omega
      · rcases ih (n + 1) with h | h
        · left; simp only [List.length_cons] at h ⊢; push_cast at h ⊢; omega
        · right; exact h

theorem jsFindIndex_lt_or_neg (p : CItem → Bool) (l : List CItem) :
    jsFindIndex p l < l.length ∨ jsFindIndex p l = -1 := by
  rcases findIndexAux_lt_or_neg p l 0 with h | h
  · left; simpa using h
  · right; exact h

theorem startBack_le (st : CState) (items : List CItem) :
    (startBack st items).toNat ≤ items.length := by
  unfold startBack
  rcases jsFindIndex_lt_or_neg (fun i => i.index = st.selection) items with
    h | h <;> split <;> omega

theorem scanFwdAux_spec (items : List CItem) :
    ∀ (fuel i : ℕ), items.length ≤ fuel + i →
    scanFwdAux items fuel i =
      (match (items.drop i).find? qualifies with
       | some it => it.index
       | none => -1) := by
  intro fuel
  induction fuel with
  | zero =>
      intro i hi
      have : items.drop i = [] := List.drop_eq_nil_of_le (by omega)
      simp [scanFwdAux, this]
  | succ fuel ih =>
      intro i hi
      rw [scanFwdAux]
      cases hget : items.get? i with
      | none =>
          have : items.drop i = [] :=
            List.drop_eq_nil_of_le (by
              have := List.get?_eq_none.mp hget
              omega)
          simp [this]
      | some it =>
          have hlt : i < items.length := by
            by_contra hle
            rw [List.get?_eq_none.mpr (by omega)] at hget
            exact Option.noConfusion hget
          have hdrop : items.drop i = it :: items.drop (i + 1) := by
            rw [List.drop_eq_getElem_cons hlt]
            rw [List.get?_eq_get hlt] at hget
            rw [Option.some_inj] at hget
            rw [List.get_eq_getElem] at hget
            rw [hget]
          rw [hdrop, List.find?_cons]
          simp only [qualifies]
          cases hq : (it.editable && !it.hidden) with
          | true => simp [hq]
          | false =>
              simp only [hq, Bool.false_eq_true, if_false]
              exact ih (i + 1) (by omega)

theorem scanBack_spec (items : List CItem) :
    ∀ i : ℕ, i ≤ items.length →
    scanBack items i =
      (match ((items.take i).reverse).find? qualifies with
       | some it => it.index
       | none => -1) := by
  intro i
  induction i with
  | zero => simp [scanBack, NO_SELECTION]
  | succ i ih =>
      intro hi
      have hlt : i < items.length := by omega
      rw [scanBack]
      obtain ⟨it, hget⟩ : ∃ it, items.get? i = some it :=
        ⟨items.get ⟨i, hlt⟩, List.get?_eq_get hlt⟩
      have hget2 : items[i]? = some it := by
        rw [← List.get?_eq_getElem?]
        exact hget
      rw [hget]
      rw [List.take_succ, hget2]
      simp only [Option.toList_some, List.reverse_append, List.reverse_cons,
        List.reverse_nil, List.nil_append, List.singleton_append,
        List.find?_cons]
      simp only [qualifies]
      cases hq : (it.editable && !it.hidden) with
      | true => simp [hq]
      | false =>
          simp only [hq, Bool.false_eq_true, if_false]
          exact ih (by omega)

end Cursor

/-- **C6 (counterexample).** With a single editable, visible field (index 0)
selected, `cursorForward` finds no qualifying field after it, passes the
sentinel -1 to `setSelection` — and `setSelection` ignores any negative
argument, so the selection stays 0; it does not become the sentinel
"no selection" value. -/
theorem moveCursor_no_sentinel_counterexample :
    (Cursor.cursorForward ⟨[⟨true, false, true, 0⟩], 0⟩
      [⟨true, false, true, 0⟩]).selection = 0 ∧
    (0 : ℤ) ≠ Cursor.NO_SELECTION := by decide

/-- **C6 (amended).** Moving the cursor scans display-ordered fields from the
current selection, skipping hidden and non-editable fields, and selects the
next qualifying field; if no qualifying field exists in that direction the
selection is left unchanged (the scan produces the sentinel -1, but
`setSelection` ignores negative values) — in particular it does not wrap
around to the other end.  The hypothesis is that field indices are
non-negative, which `createDisplayOrder` guarantees (`item.index = i`). -/
theorem moveCursor_scan :
    (∀ (st : Cursor.CState) (items : List Cursor.CItem),
      (∀ it ∈ items, 0 ≤ it.index) →
      (Cursor.cursorForward st items).selection =
        (match (items.drop ((Cursor.startFwd st items + 1).toNat)).find?
            Cursor.qualifies with
         | some it => it.index
         | none => st.selection)) ∧
    (∀ (st : Cursor.CState) (items : List Cursor.CItem),
      (∀ it ∈ items, 0 ≤ it.index) →
      (Cursor.cursorBackward st items).selection =
        (match ((items.take ((Cursor.startBack st items).toNat)).reverse).find?
            Cursor.qualifies with
         | some it => it.index
         | none => st.selection)) := by
  constructor
  · intro st items hwf
    unfold Cursor.cursorForward Cursor.scanFwd
    rw [Cursor.scanFwdAux_spec items (items.length + 1) _ (by omega)]
    cases hfind : (items.drop ((Cursor.startFwd st items + 1).toNat)).find?
        Cursor.qualifies with
    | none => simp [hfind, Cursor.setSelection]
    | some it =>
        have hmem : it ∈ items :=
          List.mem_of_mem_drop (List.mem_of_find?_eq_some hfind)
        have hidx : 0 ≤ it.index := hwf it hmem
        simp [hfind, Cursor.setSelection, hidx]
  · intro st items hwf
    unfold Cursor.cursorBackward
    rw [Cursor.scanBack_spec items _ (Cursor.startBack_le st items)]
    cases hfind : ((items.take ((Cursor.startBack st items).toNat)).reverse).find?
        Cursor.qualifies with
    | none => simp [hfind, Cursor.setSelection]
    | some it =>
        have hmem : it ∈ items := by
          have h1 := List.mem_of_find?_eq_some hfind
          rw [List.mem_reverse] at h1
          exact List.mem_of_mem_take h1
        have hidx : 0 ≤ it.index := hwf it hmem
        simp [hfind, Cursor.setSelection, hidx]

/-- Closed instance: with two editable fields and field 0 selected,
`cursorForward` selects field 1. -/
theorem moveCursor_scan_witness :
    (Cursor.cursorForward ⟨[⟨true, false, true, 0⟩, ⟨true, false, false, 1⟩], 0⟩
      [⟨true, false, true, 0⟩, ⟨true, false, false, 1⟩]).selection = 1 := by
  have h := moveCursor_scan.1
    ⟨[⟨true, false, true, 0⟩, ⟨true, false, false, 1⟩], 0⟩
    [⟨true, false, true, 0⟩, ⟨true, false, false, 1⟩] (by decide)
  simpa using h

/-! ## Key auto-repeat (digit-sequence-editor.directive.ts 1135-1139, 1232-1236)

```
// If the built-in auto-repeat is in effect, ignore keystrokes that come along
// until that auto-repeat ends.
if (!this.keyTimer && key !== 'Shift') {
  this.onKey(key);
  this.keyTimer = timer(KEY_REPEAT_DELAY, KEY_REPEAT_RATE).subscribe(() => this.onKey(key));
}

onKeyUp(): boolean { this.stopKeyTimer(); return true; }
protected stopKeyTimer(): void {
  if (this.keyTimer) { this.keyTimer.unsubscribe(); this.keyTimer = undefined; }
}
```

This is the repeat core of `onKeyDown`, reached after the platform quirks,
clipboard shortcuts, Tab and modifier/function-key guards have been passed.
The rxjs `timer(delay, rate)` subscription is modelled by a `Subscription`
record holding the captured key and the two scheduling constants; each
firing of the timer is an explicit `keyTimerFire` event.  Executions of
`onKey` are recorded in an `executed` log. -/

namespace KeyRepeat

def KEY_REPEAT_DELAY : ℤ := 500
def KEY_REPEAT_RATE : ℤ := 100

structure Subscription where
  key : String
  delay : ℤ
  rate : ℤ
deriving DecidableEq, Repr

structure KState where
  keyTimer : Option Subscription := none
  executed : List String := []
deriving DecidableEq, Repr

def onKeyDown (st : KState) (key : String) : KState :=
  if st.keyTimer = none ∧ key ≠ "Shift" then
    { keyTimer := some ⟨key, KEY_REPEAT_DELAY, KEY_REPEAT_RATE⟩,
      executed := st.executed ++ [key] }
  else st

def onKeyUp (st : KState) : KState :=
  { st with keyTimer := none }

/-- One firing of the armed repeat timer: re-runs `onKey` with the captured
key. -/
def keyTimerFire (st : KState) : KState :=
  match st.keyTimer with
  | some sub => { st with executed := st.executed ++ [sub.key] }
  | none => st

inductive KEvent where
  | down (key : String)
  | up
  | fire
deriving DecidableEq, Repr

def kstep (st : KState) : KEvent → KState
  | .down k => onKeyDown st k
  | .up => onKeyUp st
  | .fire => keyTimerFire st

def krun (st : KState) (evts : List KEvent) : KState :=
  evts.foldl kstep st

end KeyRepeat

/-- **C8 (counterexample).** Press ArrowUp (which executes and arms the
repeat timer), then press the distinct key ArrowDown while the repeat is
pending: the pending repeat is *not* cancelled — the timer stays armed for
ArrowUp — and ArrowDown is ignored outright (it does not even execute). -/
theorem keyRepeat_distinct_key_counterexample :
    (KeyRepeat.krun ⟨none, []⟩
      [.down "ArrowUp", .down "ArrowDown"]).keyTimer =
      some ⟨"ArrowUp", KeyRepeat.KEY_REPEAT_DELAY, KeyRepeat.KEY_REPEAT_RATE⟩ ∧
    (KeyRepeat.krun ⟨none, []⟩
      [.down "ArrowUp", .down "ArrowDown"]).executed = ["ArrowUp"] := by
  constructor <;> rfl

/-- **C8 (amended).** The first actuation of a key executes its action
immediately and arms the single repeat timer (delay 500 ms, rate 100 ms);
each firing of the armed timer re-executes the captured key's action; while
any repeat timer is armed, every further keydown — in particular a distinct
key — is ignored outright (it neither executes nor cancels or replaces the
pending repeat), so at most one repeat timer is ever active; releasing the
key cancels the timer (idempotently). -/
theorem keyRepeat_behavior :
    (∀ (st : KeyRepeat.KState) (k : String), st.keyTimer = none →
      k ≠ "Shift" →
      KeyRepeat.onKeyDown st k =
        { keyTimer := some ⟨k, KeyRepeat.KEY_REPEAT_DELAY,
            KeyRepeat.KEY_REPEAT_RATE⟩,
          executed := st.executed ++ [k] }) ∧
    (∀ (st : KeyRepeat.KState) (sub : KeyRepeat.Subscription),
      st.keyTimer = some sub →
      KeyRepeat.keyTimerFire st = { st with executed := st.executed ++ [sub.key] }) ∧
    (∀ (st : KeyRepeat.KState) (k : String), st.keyTimer ≠ none →
      KeyRepeat.onKeyDown st k = st) ∧
    (∀ st : KeyRepeat.KState,
      KeyRepeat.onKeyUp st = { st with keyTimer := none } ∧
      KeyRepeat.onKeyUp (KeyRepeat.onKeyUp st) = KeyRepeat.onKeyUp st) := by
  refine ⟨?_, ?_, ?_, ?_⟩
  · intro st k h1 h2
    unfold KeyRepeat.onKeyDown
    rw [if_pos ⟨h1, h2⟩]
  · intro st sub h
    unfold KeyRepeat.keyTimerFire
    rw [h]
  · intro st k h
    unfold KeyRepeat.onKeyDown
    rw [if_neg (by tauto)]
  · intro st
    exact ⟨rfl, rfl⟩

/-- Closed instance: from the idle state, ArrowUp executes immediately and
arms the timer; a fire re-executes it; keyup cancels. -/
theorem keyRepeat_behavior_witness :
    KeyRepeat.onKeyDown ⟨none, []⟩ "ArrowUp" =
      ⟨some ⟨"ArrowUp", 500, 100⟩, ["ArrowUp"]⟩ ∧
    KeyRepeat.keyTimerFire ⟨some ⟨"ArrowUp", 500, 100⟩, ["ArrowUp"]⟩ =
      ⟨some ⟨"ArrowUp", 500, 100⟩, ["ArrowUp", "ArrowUp"]⟩ ∧
    KeyRepeat.onKeyDown ⟨some ⟨"ArrowUp", 500, 100⟩, ["ArrowUp"]⟩ "ArrowDown" =
      ⟨some ⟨"ArrowUp", 500, 100⟩, ["ArrowUp"]⟩ := by
  refine ⟨?_, ?_, ?_⟩
  · exact keyRepeat_behavior.1 ⟨none, []⟩ "ArrowUp" rfl (by decide)
  · exact keyRepeat_behavior.2.1 _ ⟨"ArrowUp", 500, 100⟩ rfl
  · exact keyRepeat_behavior.2.2.1 ⟨some ⟨"ArrowUp", 500, 100⟩, ["ArrowUp"]⟩
      "ArrowDown" (by simp)

/-! ## Swipe smoothing (digit-sequence-editor.directive.ts 1422-1442)

```
private updateDeltaYSmoothing(): void {
  const now = processMillis();
  this.touchDeltaTimes = this.touchDeltaTimes.filter((time, i) => {
    if (time < now + SWIPE_SMOOTHING_WINDOW) {
      this.touchDeltaYs.splice(i, 1);
      return false;
    }
    return true;
  });
  this.touchDeltaTimes.push(now);
  this.touchDeltaYs.push(this.touchDeltaY);
  if (now < this.initialTouchTime + MIN_SWIPE_TIME)
    this.smoothedDeltaY = 0;
  else
    this.smoothedDeltaY = max(min(this.touchDeltaYs.reduce((sum, y) => sum + y) / this.touchDeltaYs.length,
      this.digitHeight * MAX_DIGIT_SWIPE), -this.digitHeight * MAX_DIGIT_SWIPE);
}
```

`Array.filter` visits the original `touchDeltaTimes` entries with their
original indices while the callback splices the *other* array
(`touchDeltaYs`) in place at the running index; this is modelled literally
by `filterSplice`.  `onTouchMove` (lines 902-918) sets
`this.touchDeltaY = pt.y - this.firstTouchPoint.y` (the cumulative drag
displacement) and then calls `updateDeltaYSmoothing`. -/

namespace Swipe

def MIN_SWIPE_TIME : ℤ := 200
def SWIPE_SMOOTHING_WINDOW : ℤ := 500
def MAX_DIGIT_SWIPE : ℚ := 9 / 10

structure SState where
  touchDeltaTimes : List ℤ
  touchDeltaYs : List ℚ
  touchDeltaY : ℚ
  smoothedDeltaY : ℚ
  initialTouchTime : ℤ
  digitHeight : ℚ
deriving DecidableEq, Repr

/-- The body of the `filter` callback together with its in-place
`touchDeltaYs.splice(i, 1)` side effect; `i` is the index in the original
`touchDeltaTimes` array.  Returns the kept times and the spliced ys. -/
def filterSplice (now : ℤ) : List ℤ → ℕ → List ℚ → List ℤ × List ℚ
  | [], _, ys => ([], ys)
  | t :: rest, i, ys =>
      if t < now + SWIPE_SMOOTHING_WINDOW then
        filterSplice now rest (i + 1) (ys.eraseIdx i)
      else
        let p := filterSplice now rest (i + 1) ys
        (t :: p.1, p.2)

def updateDeltaYSmoothing (st : SState) (now : ℤ) : SState :=
  let p := filterSplice now st.touchDeltaTimes 0 st.touchDeltaYs
  let ts := p.1 ++ [now]
  let ys := p.2 ++ [st.touchDeltaY]
  let smoothed : ℚ :=
    if now < st.initialTouchTime + MIN_SWIPE_TIME then 0
    else max (min (ys.sum / (ys.length : ℚ))
      (st.digitHeight * MAX_DIGIT_SWIPE)) (-(st.digitHeight * MAX_DIGIT_SWIPE))
  { st with touchDeltaTimes := ts, touchDeltaYs := ys,
            smoothedDeltaY := smoothed }

/-- `onTouchMove`: record the cumulative drag displacement, then smooth. -/
def onTouchMove (st : SState) (now : ℤ) (deltaY : ℚ) : SState :=
  updateDeltaYSmoothing { st with touchDeltaY := deltaY } now

/-- Modelled from the spec: "the offset is zero until a minimum elapsed
duration has passed since gesture start; thereafter, it is the average of
the last-N raw deltas within a trailing time window, clamped to ± a
fraction (≈0.9) of one field's pixel height".  `samples` are the
(time, raw delta) pairs recorded so far, newest last. -/
def specSmoothedDeltaY (samples : List (ℤ × ℚ)) (now initialTouchTime : ℤ)
    (digitHeight : ℚ) : ℚ :=
  if now < initialTouchTime + MIN_SWIPE_TIME then 0
  else
    let kept := samples.filter (fun s => now - SWIPE_SMOOTHING_WINDOW ≤ s.1)
    max (min ((kept.map Prod.snd).sum / (kept.length : ℚ))
      (digitHeight * MAX_DIGIT_SWIPE)) (-(digitHeight * MAX_DIGIT_SWIPE))

end Swipe

/-- **C9 (code bug).** Gesture start at t = 0 ms, field height 100 px,
pointer samples at t = 300 ms (cumulative delta 0 px) and t = 400 ms
(cumulative delta 10 px): both samples lie inside the 500 ms trailing
window, so the smoothed offset claimed by the spec is their average 5 px;
but the code's window test `time < now + SWIPE_SMOOTHING_WINDOW` is true
for every past timestamp, so each call discards every earlier sample and
the code produces the bare latest delta, 10 px.  (The zero-until-200 ms
guard, by contrast, behaves as claimed.) -/
theorem swipe_smoothing_window_bug :
    (Swipe.onTouchMove (Swipe.onTouchMove ⟨[], [], 0, 0, 0, 100⟩ 300 0)
      400 10).smoothedDeltaY = 10 ∧
    Swipe.specSmoothedDeltaY [(300, 0), (400, 10)] 400 0 100 = 5 ∧
    (10 : ℚ) ≠ 5 ∧
    (Swipe.onTouchMove ⟨[], [], 0, 0, 0, 100⟩ 100 7).smoothedDeltaY = 0 := by
  refine ⟨?_, ?_, by norm_num, ?_⟩ <;>
    norm_num [Swipe.onTouchMove, Swipe.updateDeltaYSmoothing,
      Swipe.filterSplice, Swipe.specSmoothedDeltaY, Swipe.SWIPE_SMOOTHING_WINDOW,
      Swipe.MIN_SWIPE_TIME, Swipe.MAX_DIGIT_SWIPE, List.eraseIdx, List.filter,
      max_def, min_def]

/-! ## AngleEditorComponent (angle-editor.component.ts)

State: `intAngle` is the committed composite value in units of
`1/angleDivisor` degrees (`value = intAngle / angleDivisor`); the format
indices locate the editable fields inside `items`; `_min`/`_max` are the
explicitly configured bounds (`null` = defaults).  `errorFlash()`,
`warningFlash()` and `reportValueChange()` are modelled as event flags;
the `timer().subscribe(...)` in `updateDigits` (which later flashes an
error and clamps the committed angle) is modelled by appending the clamped
value to a `pending` list — the deferred task itself runs on a later
macrotask, not inside the method. -/

/-- The slot the `field` string selects:
`delta === 0 ? 'value' : delta < 0 ? 'swipeBelow' : 'swipeAbove'`. -/
def slotFor (delta : ℤ) : Slot :=
  if delta = 0 then Slot.value
  else if delta < 0 then Slot.swipeBelow else Slot.swipeAbove

theorem setDigitsLoop_map_value (s : Slot) (hs : s ≠ Slot.value) :
    ∀ (cnt : ℕ) (items : List Item) (idx : ℕ) (v : ℤ),
    (setDigitsLoop items idx cnt v s).map (·.value) = items.map (·.value) := by
  intro cnt
  induction cnt with
  | zero => intro items idx v; rfl
  | succ n ih =>
      intro items idx v
      rw [setDigitsLoop, ih]
      exact writeSlot_value_of_ne_value _ _ _ _ hs

theorem setDigits_map_value (items : List Item) (idx : ℤ) (cnt : ℕ) (v : ℤ)
    (s : Slot) (hs : s ≠ Slot.value) :
    (setDigits items idx cnt v s).map (·.value) = items.map (·.value) := by
  unfold setDigits
  split
  · rfl
  · exact setDigitsLoop_map_value s hs cnt items idx.toNat v

theorem slotFor_ne_value (delta : ℤ) (hd : delta ≠ 0) :
    slotFor delta ≠ Slot.value := by
  unfold slotFor
  rw [if_neg hd]
  split <;> intro h <;> exact Slot.noConfusion h

namespace Angle

/-- `Number.EPSILON * 1000` (`Number.EPSILON = 2⁻⁵²`). -/
def EPS1000 : ℚ := 1000 * (1 / 2 ^ 52)

/-- `'\xA0'` -/
def NBSP : String := " "

structure AState where
  items : List Item
  intAngle : ℤ
  angleDivisor : ℤ
  flipSign : Bool
  outOfRange : Bool
  wrapAround : Bool
  leftDigits : ℤ
  decimals : ℕ
  signIndex : ℤ
  compassIndex : ℤ
  degreeIndex : ℤ
  minuteIndex : ℤ
  secondIndex : ℤ
  decimalIndex : ℤ
  minOpt : Option ℚ
  maxOpt : Option ℚ
  compassPoints : List String
  errorFlashed : Bool := false
  warningFlashed : Bool := false
  reported : Bool := false
  pending : List ℤ := []
deriving DecidableEq, Repr

/-- `get minAngle()` (lines 138-145). -/
def minAngle (st : AState) : ℚ :=
  match st.minOpt with
  | some m => m
  | none =>
      if st.signIndex < 0 ∧ st.compassIndex < 0 then 0
      else if st.leftDigits < 3 then -90 else -180

/-- `get maxAngle()` (lines 165-172). -/
def maxAngle (st : AState) : ℚ :=
  match st.maxOpt with
  | some m => m
  | none =>
      if st.signIndex < 0 ∧ st.compassIndex < 0 then
        if st.leftDigits < 3 then 90 else 360 - EPS1000
      else
        if st.leftDigits < 3 then 90
        else 180 - (if st.wrapAround then EPS1000 else 0)

def errorFlash (st : AState) : AState := { st with errorFlashed := true }

def warningFlash (st : AState) : AState := { st with warningFlashed := true }

def reportValueChange (st : AState) : AState := { st with reported := true }

/-- `this.items[i][field]` as read by the sign/compass toggle. -/
def readSlotVal (items : List Item) (i : ℤ) (s : Slot) : Option IVal :=
  if 0 ≤ i then (items.get? i.toNat).bind (·.getSlot s) else none

/-- `compassPoints[i]`. -/
def cpt (st : AState) (i : ℕ) : String := st.compassPoints.getD i ""

/-- The `d`/`m`/`s`/`frac` decomposition of `|intAngle|` (lines 318-349):
the decimal fraction is split off first, then seconds and minutes, each
level collapsing onto the coarser one when that field is absent.
Returns `(d, m, s, frac)`. -/
def dmsParts (st : AState) (intAngle : ℤ) : ℤ × ℤ × ℤ × ℤ :=
  let dp := st.decimals
  let frac0 : ℤ := |intAngle|
  let s1 : ℤ := if 0 < dp then frac0 / 10 ^ dp else frac0
  let frac : ℤ := if 0 < dp then frac0 % 10 ^ dp else 0
  let s2 : ℤ := if 0 ≤ st.secondIndex then s1 % 60 else 0
  let m1 : ℤ := if 0 ≤ st.secondIndex then s1 / 60 else s1
  let m2 : ℤ := if 0 ≤ st.minuteIndex then m1 % 60 else 0
  let d1 : ℤ := if 0 ≤ st.minuteIndex then m1 / 60 else m1
  (d1, m2, s2, frac)

/-- The four `setDigits` calls of `updateDigits` (lines 351-354). -/
def writeAngleDigits (st : AState) (items0 : List Item) (intAngle : ℤ)
    (field : Slot) : List Item :=
  setDigits
    (setDigits
      (setDigits
        (setDigits items0 st.degreeIndex st.leftDigits.toNat
          (dmsParts st intAngle).1 field)
        st.minuteIndex 2 (dmsParts st intAngle).2.1 field)
      st.secondIndex 2 (dmsParts st intAngle).2.2.1 field)
    st.decimalIndex st.decimals (dmsParts st intAngle).2.2.2 field

/-- The in-range rendering of `updateDigits` (lines 318-368): the digit
fields are written, then the sign or compass token is rendered (honoring a
pending `flipSign` at zero, which toggles the token in place). -/
def renderDigits (st : AState) (items0 : List Item) (intAngle : ℤ)
    (field : Slot) : List Item :=
  if 0 ≤ st.signIndex then
    if st.flipSign ∧ intAngle = 0 then
      writeSlot (writeAngleDigits st items0 intAngle field) st.signIndex field
        (.str (if readSlotVal (writeAngleDigits st items0 intAngle field)
            st.signIndex field = some (.str "-") then "+" else "-"))
    else
      writeSlot (writeAngleDigits st items0 intAngle field) st.signIndex field
        (.str (if intAngle < 0 then "-" else "+"))
  else if 0 ≤ st.compassIndex then
    if st.flipSign ∧ intAngle = 0 then
      writeSlot (writeAngleDigits st items0 intAngle field) st.compassIndex
        field
        (.str (if readSlotVal (writeAngleDigits st items0 intAngle field)
            st.compassIndex field = some (.str (cpt st 0))
          then cpt st 1 else cpt st 0))
    else
      writeSlot (writeAngleDigits st items0 intAngle field) st.compassIndex
        field (.str (cpt st (if intAngle < 0 then 0 else 1)))
  else writeAngleDigits st items0 intAngle field

/-- The value the deferred out-of-range task of `updateDigits` will commit:
`angle` clamped to the violated bound, truncated to internal units. -/
def oorClampedInt (st : AState) (angle : ℚ) : ℤ :=
  jsTrunc ((if angle < minAngle st then minAngle st else maxAngle st) *
    (st.angleDivisor : ℚ))

/-- `let angle = intAngle / this.angleDivisor` with
`intAngle = (intAngle === undefined ? this.intAngle : intAngle)`. -/
def angleOf (st : AState) (intAngleArg : Option ℤ) : ℚ :=
  ((intAngleArg.getD st.intAngle : ℤ) : ℚ) / (st.angleDivisor : ℚ)

/-- `updateDigits(intAngle?, delta = 0, selection = -1)` (lines 287-369).
The source mutates `this` sequentially; the translation gives each branch's
net effect as one record update (the sequential writes touch disjoint
fields).  `intAngleArg.isSome` is `!programmatic`; in that case the
out-of-range branch schedules `timer().subscribe(() => { errorFlash();
setIntAngle(clamped); updateDigits(); })`, recorded in `pending`. -/
def updateDigits (st : AState) (intAngleArg : Option ℤ) (delta : ℤ)
    (selection : ℤ) : AState :=
  if angleOf st intAngleArg < minAngle st ∨
      angleOf st intAngleArg > maxAngle st then
    { st with
      outOfRange := if delta = 0 then true else st.outOfRange,
      items := if delta ≠ 0 ∧ 0 ≤ selection then
          writeSlot st.items selection (slotFor delta) (.str NBSP)
        else st.items,
      pending := if intAngleArg.isSome then
          st.pending ++ [oorClampedInt st (angleOf st intAngleArg)]
        else st.pending }
  else
    { st with
      outOfRange := if delta = 0 then false else st.outOfRange,
      items := renderDigits st st.items (intAngleArg.getD st.intAngle)
        (slotFor delta) }

/-- `setIntAngle(newValue, doCallback = false)` (lines 106-114). -/
def setIntAngle (st : AState) (newValue : ℤ) (doCallback : Bool) : AState :=
  if st.intAngle ≠ newValue then
    if doCallback then
      reportValueChange
        (updateDigits { st with intAngle := newValue } none 0 (-1))
    else updateDigits { st with intAngle := newValue } none 0 (-1)
  else st

/-- `Math.round` (half up). -/
def jsRound (q : ℚ) : ℤ := ⌊q + 1 / 2⌋

/-- `setValue(newValue, doCallback)` (lines 99-104) for a non-null value. -/
def setValue (st : AState) (v : ℚ) (doCallback : Bool) : AState :=
  setIntAngle st (jsRound (v * (st.angleDivisor : ℚ))) doCallback

/-- The `change` computation of `roll` (lines 388-407) together with the
`flipSign` assignment of the sign/compass branch; returns the state (with
`flipSign` possibly updated) and `change`. -/
def rollChangeState (st : AState) (sgn : ℤ) (sel : ℤ) : AState × ℤ :=
  if st.outOfRange ∧
      (st.intAngle : ℚ) / (st.angleDivisor : ℚ) < minAngle st then
    (st, jsTrunc (minAngle st * (st.angleDivisor : ℚ) - (st.intAngle : ℚ)) * sgn)
  else if st.outOfRange ∧
      (st.intAngle : ℚ) / (st.angleDivisor : ℚ) > maxAngle st then
    (st, jsTrunc (maxAngle st * (st.angleDivisor : ℚ) - (st.intAngle : ℚ)) * sgn)
  else if sel = st.signIndex ∨ sel = st.compassIndex then
    ({ st with flipSign := st.intAngle = 0 }, -sgn * st.intAngle * 2)
  else if st.degreeIndex ≤ sel ∧ sel < st.degreeIndex + st.leftDigits then
    (st, 10 ^ (st.degreeIndex - sel + st.leftDigits - 1).toNat * st.angleDivisor)
  else if st.minuteIndex ≤ sel ∧ sel < st.minuteIndex + 2 then
    (st, 10 ^ (st.minuteIndex - sel + 1).toNat * (st.angleDivisor / 60))
  else if st.secondIndex ≤ sel ∧ sel < st.secondIndex + 2 then
    (st, 10 ^ (st.secondIndex - sel + 1).toNat * (st.angleDivisor / 3600))
  else if st.decimalIndex ≤ sel ∧ sel < st.decimalIndex + (st.decimals : ℤ) then
    (st, 10 ^ (st.decimalIndex - sel + (st.decimals : ℤ) - 1).toNat)
  else (st, 0)

/-- `intAngle = intAngle + sign * change` (line 409). -/
def rollCand (st : AState) (sgn : ℤ) (sel : ℤ) : ℤ :=
  st.intAngle + sgn * (rollChangeState st sgn sel).2

/-- The wraparound reduction (lines 413-416): plain modulo for unsigned
ranges, symmetric modulo over twice the maximum for signed ranges. -/
def rollWrapped (st : AState) (sgn : ℤ) (sel : ℤ) : ℤ :=
  if (rollChangeState st sgn sel).1.signIndex < 0 ∧
      (rollChangeState st sgn sel).1.compassIndex < 0 then
    tmod (rollCand st sgn sel)
      (jsCeil (maxAngle (rollChangeState st sgn sel).1 * (st.angleDivisor : ℚ)))
  else
    tmod2 (rollCand st sgn sel)
      (jsCeil (maxAngle (rollChangeState st sgn sel).1 *
        (st.angleDivisor : ℚ) * 2))

/-- The common tail of `roll` (lines 429-434): commit through `setIntAngle`
when committing a nonzero change, otherwise render through `updateDigits`
(into the committed slots when committing, into the swipe slots when
previewing); finally clear `flipSign`. -/
def rollFinish (st : AState) (sgn : ℤ) (updateAngle : Bool) (change : ℤ)
    (intAngle2 : ℤ) : AState :=
  { (if updateAngle ∧ change ≠ 0 then setIntAngle st intAngle2 true
     else updateDigits st (some intAngle2)
       (if updateAngle then 0 else sgn) (-1)) with
    flipSign := false }

/-- `roll(sign, sel = this.selection, updateAngle = true)` (lines 387-435). -/
def roll (st : AState) (sgn : ℤ) (sel : ℤ) (updateAngle : Bool) : AState :=
  if (rollCand st sgn sel : ℚ) / (st.angleDivisor : ℚ) <
      minAngle (rollChangeState st sgn sel).1 ∨
     (rollCand st sgn sel : ℚ) / (st.angleDivisor : ℚ) >
      maxAngle (rollChangeState st sgn sel).1 then
    if (rollChangeState st sgn sel).1.wrapAround then
      rollFinish
        (if updateAngle then warningFlash (rollChangeState st sgn sel).1
         else (rollChangeState st sgn sel).1)
        sgn updateAngle (rollChangeState st sgn sel).2 (rollWrapped st sgn sel)
    else
      if updateAngle then errorFlash (rollChangeState st sgn sel).1
      else (rollChangeState st sgn sel).1
  else
    rollFinish (rollChangeState st sgn sel).1 sgn updateAngle
      (rollChangeState st sgn sel).2 (rollCand st sgn sel)

/-- `applyPastedText(text)` (lines 68-75).  `parseText` (string scanning
through locale-dependent `toNumber`, an external utility) is abstracted as
the already-computed parse result: `none` models `null` as well as `NaN`. -/
def applyPastedText (st : AState) (parsed : Option ℚ) : AState :=
  match parsed with
  | none => errorFlash st
  | some v =>
      if v < minAngle st ∨ v > maxAngle st then errorFlash st
      else setValue st v true

theorem writeAngleDigits_map_value (st : AState) (items0 : List Item)
    (intAngle : ℤ) (field : Slot) (hf : field ≠ Slot.value) :
    (writeAngleDigits st items0 intAngle field).map (·.value) =
      items0.map (·.value) := by
  unfold writeAngleDigits
  rw [setDigits_map_value _ _ _ _ _ hf, setDigits_map_value _ _ _ _ _ hf,
    setDigits_map_value _ _ _ _ _ hf, setDigits_map_value _ _ _ _ _ hf]

theorem renderDigits_map_value (st : AState) (items0 : List Item)
    (intAngle : ℤ) (field : Slot) (hf : field ≠ Slot.value) :
    (renderDigits st items0 intAngle field).map (·.value) =
      items0.map (·.value) := by
  unfold renderDigits
  split_ifs <;>
    simp only [writeSlot_value_of_ne_value _ _ _ _ hf,
      writeAngleDigits_map_value _ _ _ _ hf]

/-- `updateDigits` never touches the committed composite value, the
callback/report flag, the flash flags, or `flipSign`. -/
theorem updateDigits_frame (st : AState) (arg : Option ℤ) (delta sel : ℤ) :
    (updateDigits st arg delta sel).intAngle = st.intAngle ∧
    (updateDigits st arg delta sel).reported = st.reported ∧
    (updateDigits st arg delta sel).errorFlashed = st.errorFlashed ∧
    (updateDigits st arg delta sel).warningFlashed = st.warningFlashed ∧
    (updateDigits st arg delta sel).flipSign = st.flipSign := by
  unfold updateDigits
  split <;> exact ⟨rfl, rfl, rfl, rfl, rfl⟩

/-- In preview mode (`delta ≠ 0`) `updateDigits` also leaves every item's
committed `value` slot and the `outOfRange` flag unchanged: all writes go to
the `swipeAbove`/`swipeBelow` slots. -/
theorem updateDigits_preview_values (st : AState) (arg : Option ℤ)
    (delta sel : ℤ) (hd : delta ≠ 0) :
    (updateDigits st arg delta sel).items.map (·.value) =
      st.items.map (·.value) ∧
    (updateDigits st arg delta sel).outOfRange = st.outOfRange := by
  have hslot := slotFor_ne_value delta hd
  unfold updateDigits
  constructor
  · split
    · simp only []
      split
      · exact writeSlot_value_of_ne_value _ _ _ _ hslot
      · rfl
    · exact renderDigits_map_value _ _ _ _ hslot
  · split <;> simp only [if_neg hd]

theorem rollChangeState_fst (st : AState) (sgn sel : ℤ) :
    (rollChangeState st sgn sel).1 = st ∨
    (rollChangeState st sgn sel).1 = { st with flipSign := st.intAngle = 0 } := by
  unfold rollChangeState
  split_ifs <;> first | exact Or.inl rfl | exact Or.inr rfl

theorem minAngle_set_flipSign (st : AState) (b : Bool) :
    minAngle { st with flipSign := b } = minAngle st := rfl

theorem maxAngle_set_flipSign (st : AState) (b : Bool) :
    maxAngle { st with flipSign := b } = maxAngle st := rfl

theorem setIntAngle_intAngle (st : AState) (v : ℤ) (doCb : Bool) :
    (setIntAngle st v doCb).intAngle = v := by
  unfold setIntAngle
  split_ifs with h hcb
  · show (updateDigits { st with intAngle := v } none 0 (-1)).intAngle = v
    rw [(updateDigits_frame _ _ _ _).1]
  · rw [(updateDigits_frame _ _ _ _).1]
  · omega

theorem setIntAngle_warning (st : AState) (v : ℤ) (doCb : Bool) :
    (setIntAngle st v doCb).warningFlashed = st.warningFlashed := by
  unfold setIntAngle
  split_ifs with h hcb
  · show (updateDigits { st with intAngle := v } none 0 (-1)).warningFlashed =
      st.warningFlashed
    rw [(updateDigits_frame _ _ _ _).2.2.2.1]
  · rw [(updateDigits_frame _ _ _ _).2.2.2.1]
  · rfl

/-- The preview tail: `rollFinish` with `updateAngle = false` only renders
into the swipe slots. -/
theorem rollFinish_preview (st : AState) (sgn change x : ℤ)
    (hs : sgn ≠ 0) :
    (rollFinish st sgn false change x).intAngle = st.intAngle ∧
    (rollFinish st sgn false change x).items.map (·.value) =
      st.items.map (·.value) ∧
    (rollFinish st sgn false change x).reported = st.reported ∧
    (rollFinish st sgn false change x).errorFlashed = st.errorFlashed ∧
    (rollFinish st sgn false change x).warningFlashed = st.warningFlashed ∧
    (rollFinish st sgn false change x).outOfRange = st.outOfRange := by
  unfold rollFinish
  rw [if_neg (by simp)]
  have hfr := updateDigits_frame st (some x) (if false = true then 0 else sgn) (-1)
  have hpv := updateDigits_preview_values st (some x)
    (if false = true then 0 else sgn) (-1) (by simpa using hs)
  exact ⟨hfr.1, hpv.1, hfr.2.1, hfr.2.2.1, hfr.2.2.2.1, hpv.2⟩

/-- `roll` in preview mode never touches the committed `intAngle`, the
committed item values, the change notification, the flash feedback or the
`outOfRange` flag. -/
theorem roll_preview_frame (st : AState) (sgn sel : ℤ)
    (hsgn : sgn = 1 ∨ sgn = -1) :
    (roll st sgn sel false).intAngle = st.intAngle ∧
    (roll st sgn sel false).items.map (·.value) = st.items.map (·.value) ∧
    (roll st sgn sel false).reported = st.reported ∧
    (roll st sgn sel false).errorFlashed = st.errorFlashed ∧
    (roll st sgn sel false).warningFlashed = st.warningFlashed ∧
    (roll st sgn sel false).outOfRange = st.outOfRange := by
  have hs : sgn ≠ 0 := by rcases hsgn with h | h <;> omega
  unfold roll
  simp only [Bool.false_eq_true, if_false]
  rcases rollChangeState_fst st sgn sel with hfst | hfst <;> rw [hfst] <;>
    split_ifs <;>
    first
      | exact ⟨rfl, rfl, rfl, rfl, rfl, rfl⟩
      | exact rollFinish_preview _ _ _ _ hs

end Angle

/-! ## TimeEditorComponent (time-editor.component.ts)

The committed composite value is a @tubular/time `DateTime`; all calendar
arithmetic (`add`, wall-time decomposition, TAI/UTC conversion, zone
offsets) lives in that external library, so the model is parameterized by
an abstract instant type `δ` and an operations record `DTOps δ`.  The
editor state mirrors the component's fields; flash feedback and the change
callback are event flags as in the angle model; the deferred
`timer().subscribe(...)` clamp of `updateDigits` is recorded in
`pendingWall`. -/

namespace TimeEd

/-- `DateTimeField` values used by `roll`. -/
inductive TField where
  | YEAR | MONTH | DAY | DAY_TAI | HOUR | HOUR_TAI | MINUTE | MINUTE_TAI
  | SECOND | SECOND_TAI | MILLI | MILLI_TAI
deriving DecidableEq, Repr

/-- The wall-time components the editor reads
(`wallTime` / `wallTimeSparse`). -/
structure Wall where
  y : ℤ
  m : ℤ
  d : ℤ
  hrs : ℤ
  minute : ℤ
  sec : ℤ
  millis : ℤ
  occurrence : ℤ
deriving DecidableEq, Repr

/-- Operations of the external `DateTime` (all functional: `clone()` is
implicit in value semantics). -/
structure DTOps (δ : Type) where
  valid : δ → Bool
  wall : δ → Wall
  add : δ → TField → ℤ → δ
  taiMillis : δ → ℤ
  utcMillis : δ → ℤ
  setTaiMillis : δ → ℤ → δ
  setUtcMillis : δ → ℤ → δ
  setWall : δ → Wall → δ
  dstOffsetSeconds : δ → ℤ
  formattedOffset : δ → String
  dstSymbol : ℤ → String

/-- A `TimeEditorLimit` as the component consumes it: its comparator, its
end-of-unit/start-of-unit wall-time filler, and its year. -/
structure TLimit (δ : Type) where
  compare : δ → ℤ
  getWall : δ → Wall
  year : ℤ

structure TState (δ : Type) where
  dateTime : δ
  items : List Item
  outOfRange : Bool
  tai : Bool
  eraIndex : ℤ
  signIndex : ℤ
  yearIndex : ℤ
  monthIndex : ℤ
  dayIndex : ℤ
  hourIndex : ℤ
  minuteIndex : ℤ
  secondIndex : ℤ
  millisIndex : ℤ
  amPmIndex : ℤ
  occIndex : ℤ
  offsetIndex : ℤ
  dstIndex : ℤ
  yearDigits : ℕ
  millisDigits : ℕ
  twoDigitYear : Bool
  centuryBase : ℤ
  minLimit : TLimit δ
  maxLimit : TLimit δ
  eraStrings : List String
  amPmStrings : List String
  timezoneError : Bool
  baseDigitIsZero : Bool
  sizerDigit : String
  altRender : Option IVal → Option String
  errorFlashed : Bool := false
  warningFlashed : Bool := false
  reported : Bool := false
  pendingWall : List Wall := []

def OCC2 : String := " ₂ "

def NO_BREAK_SPACE : String := " "

def jsMaxSafeInteger : ℤ := 2 ^ 53 - 1

/-- `maxYear()` (lines 958-962). -/
def maxYear {δ : Type} (st : TState δ) : ℤ :=
  min (if st.twoDigitYear then st.centuryBase + 99 else jsMaxSafeInteger)
    st.maxLimit.year

/-- `minYear()` (lines 964-969). -/
def minYear {δ : Type} (st : TState δ) : ℤ :=
  max (max
    (if st.eraIndex < 0 then
      (if st.signIndex < 0 then 1 else -jsMaxSafeInteger)
     else -jsMaxSafeInteger)
    (if st.twoDigitYear then st.centuryBase else -jsMaxSafeInteger))
    st.minLimit.year

def errorFlash {δ : Type} (st : TState δ) : TState δ :=
  { st with errorFlashed := true }

def warningFlash {δ : Type} (st : TState δ) : TState δ :=
  { st with warningFlashed := true }

/-- The year digits written for the wall time (lines 1026-1041):
`y = abs(y)`, era years below 1 become `1 - y` when no sign field exists,
two-digit years are reduced mod 100. -/
def yearDigitsValue {δ : Type} (st : TState δ) (w : Wall) : ℤ :=
  let y0 := if st.signIndex < 0 ∧ w.y < 1 then 1 - w.y else |w.y|
  if st.twoDigitYear then y0 % 100 else y0

/-- The displayed hour (lines 1046-1055): 12-hour conversion when an
AM/PM field exists. -/
def hourDigitsValue {δ : Type} (st : TState δ) (w : Wall) : ℤ :=
  if 0 ≤ st.amPmIndex then
    (if w.hrs = 0 then 12 else if w.hrs ≤ 12 then w.hrs else w.hrs - 12)
  else w.hrs

/-- Lines 1028-1031: the era token, or else the year sign token. -/
def writeEraOrSign {δ : Type} (st : TState δ) (w : Wall) (field : Slot)
    (items : List Item) : List Item :=
  if 0 ≤ st.eraIndex then
    writeSlot items st.eraIndex field
      (.str (st.eraStrings.getD (if w.y < 1 then 0 else 1) ""))
  else if 0 ≤ st.signIndex then
    writeSlot items st.signIndex field
      (.str (if w.y < 0 then "-"
             else if 0 < st.signIndex then "+" else NO_BREAK_SPACE))
  else items

/-- Lines 1033-1041: the year digits. -/
def writeYearPart {δ : Type} (st : TState δ) (w : Wall) (field : Slot)
    (items : List Item) : List Item :=
  if 0 ≤ st.yearIndex then
    setDigits items st.yearIndex st.yearDigits (yearDigitsValue st w) field
  else items

/-- Lines 1046-1055: the AM/PM token and the (possibly 12-hour) hour
digits. -/
def writeHourAmPm {δ : Type} (st : TState δ) (w : Wall) (field : Slot)
    (items : List Item) : List Item :=
  if 0 ≤ st.hourIndex then
    setDigits
      (if 0 ≤ st.amPmIndex then
        writeSlot items st.amPmIndex field
          (.str (st.amPmStrings.getD (if w.hrs < 12 then 0 else 1) ""))
       else items)
      st.hourIndex 2 (hourDigitsValue st w) field
  else items

/-- Lines 1061-1062: the second-occurrence subscript indicator. -/
def writeOcc {δ : Type} (ops : DTOps δ) (st : TState δ) (d : δ)
    (field : Slot) (items : List Item) : List Item :=
  if 0 ≤ st.occIndex then
    writeSlot items st.occIndex field
      (.str (if (ops.wall d).occurrence = 2 then OCC2 else NO_BREAK_SPACE))
  else items

/-- Lines 1064-1065: the formatted UTC-offset indicator. -/
def writeOffset {δ : Type} (ops : DTOps δ) (st : TState δ) (d : δ)
    (field : Slot) (items : List Item) : List Item :=
  if 0 ≤ st.offsetIndex then
    writeSlot items st.offsetIndex field (.str (ops.formattedOffset d))
  else items

/-- Lines 1067-1075: the DST indicator. -/
def writeDst {δ : Type} (ops : DTOps δ) (st : TState δ) (d : δ)
    (field : Slot) (items : List Item) : List Item :=
  if 0 ≤ st.dstIndex then
    writeSlot items st.dstIndex field
      (.str (if st.timezoneError then "?"
             else if ops.dstOffsetSeconds d = 0 then NO_BREAK_SPACE
             else ops.dstSymbol (ops.dstOffsetSeconds d)))
  else items

/-- The item writes of the in-range path of `updateDigits`
(lines 1026-1075), all into the slot family selected by `delta`. -/
def renderTimeDigits {δ : Type} (ops : DTOps δ) (st : TState δ) (d : δ)
    (w : Wall) (field : Slot) (items0 : List Item) : List Item :=
  writeDst ops st d field
    (writeOffset ops st d field
      (writeOcc ops st d field
        (setDigits
          (setDigits
            (setDigits
              (writeHourAmPm st w field
                (setDigits
                  (setDigits
                    (writeYearPart st w field
                      (writeEraOrSign st w field items0))
                    st.monthIndex 2 w.m field)
                  st.dayIndex 2 w.d field))
              st.minuteIndex 2 w.minute field)
            st.secondIndex 2 w.sec field)
          st.millisIndex st.millisDigits w.millis field)))

/-- The final `forEach` of `updateDigits` (lines 1077-1086): every editable
numeric item gets the sizer digit and its alternate-numbering rendering for
the written slot. -/
def altPass {δ : Type} (st : TState δ) (field : Slot)
    (items : List Item) : List Item :=
  items.map fun it =>
    if it.editable && it.value.isNum then
      let it1 := { it with sizer := some st.sizerDigit }
      if st.baseDigitIsZero then it1.setAlt field none
      else it1.setAlt field (st.altRender (it1.getSlot field))
    else it

/-- `this.items[i][field] = (alt string)`. -/
def writeAlt (items : List Item) (i : ℤ) (s : Slot) (v : Option String) :
    List Item :=
  if 0 ≤ i then modifyNth (fun it => it.setAlt s v) items i.toNat else items

/-- `this.items[i]?.value`. -/
def readVal (items : List Item) (i : ℤ) : Option IVal :=
  if 0 ≤ i then (items.get? i.toNat).map (·.value) else none

/-- The argument of `updateDigits(dateTime?, ...)`: `undefined` (outer
`none`) means "use `this.dateTime`" (the programmatic call), `null`
(`some none`) is the invalid preview marker, `some (some d)` a provided
`DateTime`. -/
def dtArgValue {δ : Type} (st : TState δ) : Option (Option δ) → Option δ
  | none => some st.dateTime
  | some o => o

/-- The `!dateTime?.valid` branch of `updateDigits` (lines 984-989):
`i[selection][field] = i[selection][alt_field] = NO_BREAK_SPACE`. -/
def tdInvalidItems (items : List Item) (selection delta : ℤ) : List Item :=
  writeAlt (writeSlot items selection (slotFor delta) (.str NO_BREAK_SPACE))
    selection (slotFor delta) (some NO_BREAK_SPACE)

def tdInvalid {δ : Type} (st : TState δ) (delta selection : ℤ) : TState δ :=
  if delta ≠ 0 ∧ 0 ≤ selection then
    { st with items := tdInvalidItems st.items selection delta }
  else st

/-- `outOfRange` of `updateDigits` (lines 995-1010). -/
def tdOor {δ : Type} (st : TState δ) (d : δ) : Bool :=
  decide (0 < st.minLimit.compare d ∨ st.maxLimit.compare d < 0)

/-- The wall time `updateDigits` renders (lines 991-1010): the plain
`wallTimeSparse` for a programmatic call, the bound-clamped wall time when a
provided `DateTime` violates a limit. -/
def tdWallUsed {δ : Type} (ops : DTOps δ) (st : TState δ) (d : δ)
    (programmatic : Bool) : Wall :=
  if 0 < st.minLimit.compare d then
    (if programmatic then ops.wall d else st.minLimit.getWall d)
  else if st.maxLimit.compare d < 0 then
    (if programmatic then ops.wall d else st.maxLimit.getWall d)
  else ops.wall d

/-- `updateDigits(dateTime?, delta = 0, selection = -1)` (lines 975-1090).
When a provided `DateTime` is out of range and `delta = 0`, the method sets
`outOfRange`, defers `errorFlash(); dateTime.wallTime = (clamped);
reportValueChange(); updateDigits();` to a later macrotask (recorded in
`pendingWall`) and returns; otherwise it renders the (possibly clamped)
wall time into the slot family selected by `delta` and runs the
alternate-numbering pass.  `updateLocalTime()` (which only mirrors the
committed value into the hidden native input, §6 boundary) is outside the
modelled state. -/
def updateDigits {δ : Type} (ops : DTOps δ) (st : TState δ)
    (dtArg : Option (Option δ)) (delta : ℤ) (selection : ℤ) : TState δ :=
  match dtArgValue st dtArg with
  | none => tdInvalid st delta selection
  | some d =>
      if ops.valid d = false then tdInvalid st delta selection
      else if dtArg.isSome = true ∧ tdOor st d = true ∧ delta = 0 then
        { st with
          outOfRange := true,
          pendingWall := st.pendingWall ++ [tdWallUsed ops st d false] }
      else
        { st with
          outOfRange := if delta = 0 then tdOor st d else st.outOfRange,
          items := altPass st (slotFor delta)
            (renderTimeDigits ops st d (tdWallUsed ops st d dtArg.isNone)
              (slotFor delta) st.items) }

/-- The field/change classification of `roll` (lines 1182-1235); the era and
year-sign branches reject a toggle that would leave the legal year range
before any change is attempted. -/
inductive RollPlan where
  | reject
  | go (field : TField) (change : ℤ)
deriving DecidableEq, Repr

def rollPlan {δ : Type} (ops : DTOps δ) (st : TState δ) (sgn sel : ℤ) :
    RollPlan :=
  if 0 ≤ st.eraIndex ∧ sel = st.eraIndex then
    (if 1 - (ops.wall st.dateTime).y < minYear st ∨
        maxYear st < 1 - (ops.wall st.dateTime).y then .reject
     else .go .YEAR (sgn * ((1 - (ops.wall st.dateTime).y) -
       (ops.wall st.dateTime).y)))
  else if 0 ≤ st.signIndex ∧ sel = st.signIndex then
    (if -(ops.wall st.dateTime).y < minYear st ∨
        maxYear st < -(ops.wall st.dateTime).y then .reject
     else .go .YEAR (-sgn * (ops.wall st.dateTime).y * 2))
  else if 0 ≤ st.millisIndex ∧ st.millisIndex ≤ sel ∧
      sel < st.millisIndex + (st.millisDigits : ℤ) then
    .go (if st.tai then .MILLI_TAI else .MILLI)
      (10 ^ (5 - (st.millisDigits : ℤ) + st.millisIndex - sel).toNat)
  else if 0 ≤ st.secondIndex ∧ (sel = st.secondIndex ∨ sel = st.secondIndex + 1) then
    .go (if st.tai then .SECOND_TAI else .SECOND)
      (if sel = st.secondIndex then 10 else 1)
  else if 0 ≤ st.minuteIndex ∧ (sel = st.minuteIndex ∨ sel = st.minuteIndex + 1) then
    .go (if st.tai then .MINUTE_TAI else .MINUTE)
      (if sel = st.minuteIndex then 10 else 1)
  else if 0 ≤ st.hourIndex ∧ (sel = st.hourIndex ∨ sel = st.hourIndex + 1) then
    .go (if st.tai then .HOUR_TAI else .HOUR)
      (if sel = st.hourIndex then 10 else 1)
  else if 0 ≤ st.amPmIndex ∧ sel = st.amPmIndex then
    .go .HOUR ((if (ops.wall st.dateTime).hrs < 12 then 12 else -12) * sgn)
  else if 0 ≤ st.dayIndex ∧ (sel = st.dayIndex ∨ sel = st.dayIndex + 1) then
    .go (if st.tai then .DAY_TAI else .DAY) (if sel = st.dayIndex then 10 else 1)
  else if 0 ≤ st.monthIndex ∧ (sel = st.monthIndex ∨ sel = st.monthIndex + 1) then
    .go .MONTH (if sel = st.monthIndex then 10 else 1)
  else if 0 ≤ st.yearIndex ∧ st.yearIndex ≤ sel ∧
      sel < st.yearIndex + (st.yearDigits : ℤ) then
    .go .YEAR (10 ^ (st.yearIndex + (st.yearDigits : ℤ) - sel - 1).toNat)
  else .go .YEAR 0

/-- `dateTime.add(field, change * sign)` on the clone of the committed
value. -/
def rollCandDT {δ : Type} (ops : DTOps δ) (st : TState δ) (field : TField)
    (change sgn : ℤ) : δ :=
  ops.add st.dateTime field (change * sgn)

/-- The rejection test of `roll` (lines 1245-1246). -/
def rollOutOfBounds {δ : Type} (ops : DTOps δ) (st : TState δ) (cand : δ) :
    Prop :=
  0 < st.minLimit.compare cand ∨ st.maxLimit.compare cand < 0 ∨
  (ops.wall cand).y < minYear st ∨ maxYear st < (ops.wall cand).y

instance {δ : Type} (ops : DTOps δ) (st : TState δ) (cand : δ) :
    Decidable (rollOutOfBounds ops st cand) := by
  unfold rollOutOfBounds
  infer_instance

/-- `this.dateTime.taiMillis = dateTime.taiMillis` (or UTC) — the commit of
the candidate into the owned `DateTime` (lines 1256-1260). -/
def commitDT {δ : Type} (ops : DTOps δ) (stX : TState δ) (cand : δ) : δ :=
  if stX.tai then ops.setTaiMillis stX.dateTime (ops.taiMillis cand)
  else ops.setUtcMillis stX.dateTime (ops.utcMillis cand)

/-- Commit then re-render (lines 1256-1263): `reportValueChange()` and
`this.updateDigits(this.dateTime)`. -/
def commitState {δ : Type} (ops : DTOps δ) (stX : TState δ) (cand : δ) :
    TState δ :=
  updateDigits ops
    { stX with dateTime := commitDT ops stX cand, reported := true }
    (some (some (commitDT ops stX cand))) 0 (-1)

/-- Lines 1256-1267: the commit including the year-zero sign cosmetic fix
(`wasNegative` is whether the sign item showed `-` before the roll). -/
def rollCommit {δ : Type} (ops : DTOps δ) (stX : TState δ) (cand : δ)
    (wasNegative : Bool) (sel : ℤ) : TState δ :=
  if sel = stX.signIndex ∧ (ops.wall (commitState ops stX cand).dateTime).y = 0 then
    { commitState ops stX cand with
      items := writeSlot (commitState ops stX cand).items sel .value
        (.str (if wasNegative then (if 0 < sel then "+" else NO_BREAK_SPACE)
               else "-")) }
  else commitState ops stX cand

/-- The tail of `roll` once the candidate is (tolerably) in range:
commit when `updateTime`, else preview through `updateDigits(dateTime,
sign)` (lines 1256-1269). -/
def rollTail {δ : Type} (ops : DTOps δ) (stX : TState δ) (st : TState δ)
    (sgn sel : ℤ) (updateTime : Bool) (field : TField) (change : ℤ) :
    TState δ :=
  if updateTime then
    rollCommit ops stX (rollCandDT ops st field change sgn)
      (readVal st.items st.signIndex = some (.str "-")) sel
  else
    updateDigits ops stX (some (some (rollCandDT ops st field change sgn)))
      sgn (-1)

/-- `roll(sign, sel = this.selection, updateTime = true)` (lines 1170-1270).
`st.outOfRange` is the captured `wasOutOfRange`; when the candidate violates
a bound the roll is rejected (error flash when committing, a blank preview
slot when previewing) unless the value was already out of range. -/
def roll {δ : Type} (ops : DTOps δ) (st : TState δ) (sgn sel : ℤ)
    (updateTime : Bool) : TState δ :=
  match rollPlan ops st sgn sel with
  | .reject => if updateTime then errorFlash st else st
  | .go field change =>
      if change = 0 then
        (if updateTime then { st with outOfRange := false } else st)
      else
        if rollOutOfBounds ops st (rollCandDT ops st field change sgn) then
          (if updateTime = false ∨ st.outOfRange = false then
            (if updateTime then
              errorFlash { st with outOfRange := false }
             else updateDigits ops st (some none) sgn sel)
          else
            rollTail ops
              (if updateTime then errorFlash { st with outOfRange := false }
               else updateDigits ops st (some none) sgn sel)
              st sgn sel updateTime field change)
        else
          rollTail ops
            (if updateTime then { st with outOfRange := false } else st)
            st sgn sel updateTime field change

/-- `applyPastedText(text)` (lines 170-187).  `parseText` (the
locale-driven inverse of the display formatting, largely delegated to
@tubular/time parsing) is abstracted as its result: `null` (`none`), a
TAI-millisecond number, or a wall-time record. -/
def applyPastedText {δ : Type} (ops : DTOps δ) (st : TState δ)
    (parsed : Option (ℤ ⊕ Wall)) : TState δ :=
  match parsed with
  | none => errorFlash st
  | some (.inl n) =>
      updateDigits ops
        { st with dateTime := ops.setTaiMillis st.dateTime n,
                  outOfRange := false, reported := true } none 0 (-1)
  | some (.inr w) =>
      updateDigits ops
        { st with dateTime := ops.setWall st.dateTime w,
                  outOfRange := false, reported := true } none 0 (-1)

theorem writeAlt_map_value (items : List Item) (i : ℤ) (s : Slot)
    (v : Option String) :
    (writeAlt items i s v).map (·.value) = items.map (·.value) := by
  unfold writeAlt
  split
  · exact modifyNth_map_of_preserve _ (fun it => by cases s <;> rfl) _ _
  · rfl

theorem altPass_map_value {δ : Type} (st : TState δ) (field : Slot)
    (items : List Item) :
    (altPass st field items).map (·.value) = items.map (·.value) := by
  unfold altPass
  induction items with
  | nil => rfl
  | cons a l ih =>
      simp only [List.map_cons, ih]
      congr 1
      split
      · split <;> cases field <;> rfl
      · rfl

theorem renderTimeDigits_map_value {δ : Type} (ops : DTOps δ)
    (st : TState δ) (d : δ) (w : Wall) (field : Slot) (items0 : List Item)
    (hf : field ≠ Slot.value) :
    (renderTimeDigits ops st d w field items0).map (·.value) =
      items0.map (·.value) := by
  have W : ∀ (items : List Item) (i : ℤ) (v : IVal),
      (writeSlot items i field v).map (·.value) = items.map (·.value) :=
    fun items i v => writeSlot_value_of_ne_value items i field v hf
  have S : ∀ (items : List Item) (idx : ℤ) (cnt : ℕ) (v : ℤ),
      (setDigits items idx cnt v field).map (·.value) = items.map (·.value) :=
    fun items idx cnt v => setDigits_map_value items idx cnt v field hf
  have E : ∀ items, (writeEraOrSign st w field items).map (·.value) =
      items.map (·.value) := by
    intro items
    unfold writeEraOrSign
    split_ifs <;> simp only [W]
  have Y : ∀ items, (writeYearPart st w field items).map (·.value) =
      items.map (·.value) := by
    intro items
    unfold writeYearPart
    split_ifs <;> simp only [S]
  have H : ∀ items, (writeHourAmPm st w field items).map (·.value) =
      items.map (·.value) := by
    intro items
    unfold writeHourAmPm
    split_ifs <;> simp only [W, S]
  have O1 : ∀ items, (writeOcc ops st d field items).map (·.value) =
      items.map (·.value) := by
    intro items
    unfold writeOcc
    split_ifs <;> simp only [W]
  have O2 : ∀ items, (writeOffset ops st d field items).map (·.value) =
      items.map (·.value) := by
    intro items
    unfold writeOffset
    split_ifs <;> simp only [W]
  have O3 : ∀ items, (writeDst ops st d field items).map (·.value) =
      items.map (·.value) := by
    intro items
    unfold writeDst
    split_ifs <;> simp only [W]
  unfold renderTimeDigits
  rw [O3, O2, O1, S, S, S, H, S, S, Y, E]

theorem tdInvalid_frame {δ : Type} (st : TState δ) (delta sel : ℤ) :
    (tdInvalid st delta sel).dateTime = st.dateTime ∧
    (tdInvalid st delta sel).reported = st.reported ∧
    (tdInvalid st delta sel).errorFlashed = st.errorFlashed ∧
    (tdInvalid st delta sel).warningFlashed = st.warningFlashed ∧
    (tdInvalid st delta sel).outOfRange = st.outOfRange ∧
    (tdInvalid st delta sel).pendingWall = st.pendingWall := by
  unfold tdInvalid
  split <;> exact ⟨rfl, rfl, rfl, rfl, rfl, rfl⟩

theorem tdInvalid_map_value {δ : Type} (st : TState δ) (delta sel : ℤ)
    (hd : delta ≠ 0) :
    (tdInvalid st delta sel).items.map (·.value) =
      st.items.map (·.value) := by
  unfold tdInvalid
  split
  · show (tdInvalidItems st.items sel delta).map (·.value) = _
    unfold tdInvalidItems
    rw [writeAlt_map_value,
      writeSlot_value_of_ne_value _ _ _ _ (slotFor_ne_value delta hd)]
  · rfl

/-- `updateDigits` (time editor) never touches the committed `DateTime`,
the report flag or the flash flags. -/
theorem td_updateDigits_frame {δ : Type} (ops : DTOps δ) (st : TState δ)
    (dtArg : Option (Option δ)) (delta sel : ℤ) :
    (updateDigits ops st dtArg delta sel).dateTime = st.dateTime ∧
    (updateDigits ops st dtArg delta sel).reported = st.reported ∧
    (updateDigits ops st dtArg delta sel).errorFlashed = st.errorFlashed ∧
    (updateDigits ops st dtArg delta sel).warningFlashed = st.warningFlashed := by
  unfold updateDigits
  rcases hdt : dtArgValue st dtArg with _ | d <;> simp only []
  · have h := tdInvalid_frame st delta sel
    exact ⟨h.1, h.2.1, h.2.2.1, h.2.2.2.1⟩
  · split_ifs <;>
      first
        | (have h := tdInvalid_frame st delta sel
           exact ⟨h.1, h.2.1, h.2.2.1, h.2.2.2.1⟩)
        | exact ⟨rfl, rfl, rfl, rfl⟩

/-- In preview mode (`delta ≠ 0`) `updateDigits` (time editor) leaves every
item's committed `value` slot, the `outOfRange` flag and the deferred-clamp
queue unchanged. -/
theorem td_updateDigits_preview {δ : Type} (ops : DTOps δ) (st : TState δ)
    (dtArg : Option (Option δ)) (delta sel : ℤ) (hd : delta ≠ 0) :
    (updateDigits ops st dtArg delta sel).items.map (·.value) =
      st.items.map (·.value) ∧
    (updateDigits ops st dtArg delta sel).outOfRange = st.outOfRange ∧
    (updateDigits ops st dtArg delta sel).pendingWall = st.pendingWall := by
  unfold updateDigits
  rcases hdt : dtArgValue st dtArg with _ | d <;> simp only []
  · exact ⟨tdInvalid_map_value st delta sel hd, (tdInvalid_frame _ _ _).2.2.2.2.1,
      (tdInvalid_frame _ _ _).2.2.2.2.2⟩
  · split_ifs with h1 h2
    · exact ⟨tdInvalid_map_value st delta sel hd, (tdInvalid_frame _ _ _).2.2.2.2.1,
        (tdInvalid_frame _ _ _).2.2.2.2.2⟩
    · exact absurd h2.2.2 hd
    · refine ⟨?_, by simp only [if_neg hd], rfl⟩
      rw [altPass_map_value,
        renderTimeDigits_map_value _ _ _ _ _ _ (slotFor_ne_value delta hd)]

/-- `roll` (time editor) in preview mode leaves the committed `DateTime`,
the committed item values, the report flag, `outOfRange`, the flash flags
and the deferred-clamp queue unchanged. -/
theorem timeRoll_preview_frame {δ : Type} (ops : DTOps δ) (st : TState δ)
    (sgn sel : ℤ) (hsgn : sgn = 1 ∨ sgn = -1) :
    (roll ops st sgn sel false).dateTime = st.dateTime ∧
    (roll ops st sgn sel false).items.map (·.value) = st.items.map (·.value) ∧
    (roll ops st sgn sel false).reported = st.reported ∧
    (roll ops st sgn sel false).outOfRange = st.outOfRange ∧
    (roll ops st sgn sel false).errorFlashed = st.errorFlashed ∧
    (roll ops st sgn sel false).warningFlashed = st.warningFlashed ∧
    (roll ops st sgn sel false).pendingWall = st.pendingWall := by
  have hs : sgn ≠ 0 := by rcases hsgn with h | h <;> omega
  unfold roll
  cases hplan : rollPlan ops st sgn sel with
  | reject => exact ⟨rfl, rfl, rfl, rfl, rfl, rfl, rfl⟩
  | go field change =>
      simp only [Bool.false_eq_true, if_false]
      split_ifs with hch hoob hretn
      · exact ⟨rfl, rfl, rfl, rfl, rfl, rfl, rfl⟩
      · have hf := td_updateDigits_frame ops st (some none) sgn sel
        have hp := td_updateDigits_preview ops st (some none) sgn sel hs
        exact ⟨hf.1, hp.1, hf.2.1, hp.2.1, hf.2.2.1, hf.2.2.2, hp.2.2⟩
      · exact absurd (Or.inl trivial) hretn
      · unfold rollTail
        simp only [Bool.false_eq_true, if_false]
        have hf := td_updateDigits_frame ops st
          (some (some (rollCandDT ops st field change sgn))) sgn (-1)
        have hp := td_updateDigits_preview ops st
          (some (some (rollCandDT ops st field change sgn))) sgn (-1) hs
        exact ⟨hf.1, hp.1, hf.2.1, hp.2.1, hf.2.2.1, hf.2.2.2, hp.2.2⟩

end TimeEd

/-! ## Claim theorems for the roll engine and paste handling -/

/-- A representative angle-editor state: DDD signed style, divisor 1,
committed value 45°. -/
def angleStW : Angle.AState :=
  { items := [{ value := .str "+", editable := true, sign := true, index := 0 },
              { value := .num 0, editable := true, digit := true, index := 1 },
              { value := .num 4, editable := true, digit := true, index := 2 },
              { value := .num 5, editable := true, digit := true, index := 3 },
              { value := .str "°", static := true, index := 4 }],
    intAngle := 45, angleDivisor := 1, flipSign := false, outOfRange := false,
    wrapAround := false, leftDigits := 3, decimals := 0,
    signIndex := 0, compassIndex := -1, degreeIndex := 1, minuteIndex := -1,
    secondIndex := -1, decimalIndex := -1, minOpt := none, maxOpt := none,
    compassPoints := ["W", "E"] }

/-- A concrete instantiation of the abstract `DateTime` operations over
plain integer instants, for closed witnesses. -/
def intOps : TimeEd.DTOps ℤ :=
  { valid := fun _ => true,
    wall := fun d => ⟨2021, 1, 1, 0, 0, d % 60, 0, 1⟩,
    add := fun d _ n => d + n,
    taiMillis := id, utcMillis := id,
    setTaiMillis := fun _ n => n, setUtcMillis := fun _ n => n,
    setWall := fun d _ => d,
    dstOffsetSeconds := fun _ => 0,
    formattedOffset := fun _ => "+00:00",
    dstSymbol := fun _ => "^" }

/-- A representative time-editor state over `intOps`: a single
seconds field, unbounded limits. -/
def timeStW : TimeEd.TState ℤ :=
  { dateTime := 1000,
    items := [{ value := .num 0, editable := true, digit := true, index := 0 },
              { value := .num 1, editable := true, digit := true, index := 1 }],
    outOfRange := false, tai := false,
    eraIndex := -1, signIndex := -1, yearIndex := -1, monthIndex := -1,
    dayIndex := -1, hourIndex := -1, minuteIndex := -1, secondIndex := 0,
    millisIndex := -1, amPmIndex := -1, occIndex := -1, offsetIndex := -1,
    dstIndex := -1, yearDigits := 4, millisDigits := 0, twoDigitYear := false,
    centuryBase := 2000,
    minLimit := ⟨fun _ => 0, fun d => intOps.wall d, -9999⟩,
    maxLimit := ⟨fun _ => 0, fun d => intOps.wall d, 9999⟩,
    eraStrings := ["BC", "AD"], amPmStrings := ["AM", "PM"],
    timezoneError := false, baseDigitIsZero := true, sizerDigit := "0",
    altRender := fun _ => none }

/-- **C2.** For every field (selection) and every direction, `roll` in
non-committing (preview) mode performs the tick arithmetic but leaves the
committed composite value (the angle editor's `intAngle`, the time editor's
`DateTime`) and every item's committed `value` slot unchanged, and fires no
change notification; the computed preview lands only in the transient
`swipeAbove`/`swipeBelow` slots.  The time-editor statement holds for every
behavior of the external `DateTime` arithmetic (`ops`). -/
theorem roll_noncommitting_preview :
    (∀ (st : Angle.AState) (sgn sel : ℤ), sgn = 1 ∨ sgn = -1 →
      (Angle.roll st sgn sel false).intAngle = st.intAngle ∧
      (Angle.roll st sgn sel false).items.map (·.value) =
        st.items.map (·.value) ∧
      (Angle.roll st sgn sel false).reported = st.reported) ∧
    (∀ (δ : Type) (ops : TimeEd.DTOps δ) (st : TimeEd.TState δ)
      (sgn sel : ℤ), sgn = 1 ∨ sgn = -1 →
      (TimeEd.roll ops st sgn sel false).dateTime = st.dateTime ∧
      (TimeEd.roll ops st sgn sel false).items.map (·.value) =
        st.items.map (·.value) ∧
      (TimeEd.roll ops st sgn sel false).reported = st.reported) := by
  constructor
  · intro st sgn sel h
    have hh := Angle.roll_preview_frame st sgn sel h
    exact ⟨hh.1, hh.2.1, hh.2.2.1⟩
  · intro δ ops st sgn sel h
    have hh := TimeEd.timeRoll_preview_frame ops st sgn sel h
    exact ⟨hh.1, hh.2.1, hh.2.2.1⟩

/-- Closed instance of C2: an upward preview roll on a degree digit of the
45° angle state, and on the seconds field of the concrete time state. -/
theorem roll_noncommitting_preview_witness :
    (Angle.roll angleStW 1 2 false).intAngle = 45 ∧
    (TimeEd.roll intOps timeStW 1 0 false).dateTime = 1000 :=
  ⟨(roll_noncommitting_preview.1 angleStW 1 2 (Or.inl rfl)).1,
   (roll_noncommitting_preview.2 ℤ intOps timeStW 1 0 (Or.inl rfl)).1⟩

/-- `angleStW` at the committed value 180° (still legal when wraparound is
off, since then `maxAngle` is exactly 180). -/
def angleStW2 : Angle.AState :=
  { angleStW with intAngle := 180 }

/-- `timeStW` with a max limit that rejects instants beyond 1005. -/
def timeStW2 : TimeEd.TState ℤ :=
  { timeStW with
    maxLimit := ⟨fun d => if 1005 < d then -1 else 0,
      fun d => intOps.wall d, 9999⟩ }

/-- **C4.** For an in-range current value (`outOfRange = false`), committing
a roll whose candidate falls outside the bounds with wraparound disabled
rejects the edit: the error signal fires, and the committed composite value
and every item are left unchanged (no change notification, no deferred
task; the functions are total, so no exception arises).  In particular,
rolling a value already at a bound away from the legal range is a no-op
plus error signal.  The angle statement covers the angle editor; the time
statement holds for every behavior of the external `DateTime` arithmetic
(the time editor never wraps). -/
theorem roll_reject_out_of_range :
    (∀ (st : Angle.AState) (sgn sel : ℤ),
      st.outOfRange = false → st.wrapAround = false →
      ((Angle.rollCand st sgn sel : ℚ) / (st.angleDivisor : ℚ) <
          Angle.minAngle st ∨
       (Angle.rollCand st sgn sel : ℚ) / (st.angleDivisor : ℚ) >
          Angle.maxAngle st) →
      (Angle.roll st sgn sel true).intAngle = st.intAngle ∧
      (Angle.roll st sgn sel true).items = st.items ∧
      (Angle.roll st sgn sel true).errorFlashed = true ∧
      (Angle.roll st sgn sel true).reported = st.reported ∧
      (Angle.roll st sgn sel true).pending = st.pending) ∧
    (∀ (δ : Type) (ops : TimeEd.DTOps δ) (st : TimeEd.TState δ)
      (sgn sel : ℤ) (field : TimeEd.TField) (change : ℤ),
      TimeEd.rollPlan ops st sgn sel = .go field change →
      change ≠ 0 →
      st.outOfRange = false →
      TimeEd.rollOutOfBounds ops st (TimeEd.rollCandDT ops st field change sgn) →
      (TimeEd.roll ops st sgn sel true).dateTime = st.dateTime ∧
      (TimeEd.roll ops st sgn sel true).items = st.items ∧
      (TimeEd.roll ops st sgn sel true).errorFlashed = true ∧
      (TimeEd.roll ops st sgn sel true).reported = st.reported ∧
      (TimeEd.roll ops st sgn sel true).pendingWall = st.pendingWall) := by
  constructor
  · intro st sgn sel hoor hwrap hoob
    unfold Angle.roll
    rcases Angle.rollChangeState_fst st sgn sel with hfst | hfst
    · rw [hfst]
      split_ifs <;>
        first
          | exact ⟨rfl, rfl, rfl, rfl, rfl⟩
          | simp_all
    · rw [hfst, Angle.minAngle_set_flipSign, Angle.maxAngle_set_flipSign]
      split_ifs <;>
        first
          | exact ⟨rfl, rfl, rfl, rfl, rfl⟩
          | simp_all
  · intro δ ops st sgn sel field change hplan hch hoor hoob
    unfold TimeEd.roll
    cases hplan2 : TimeEd.rollPlan ops st sgn sel with
    | reject => rw [hplan2] at hplan; exact absurd hplan (by simp)
    | go f c =>
        rw [hplan2] at hplan
        injection hplan with hf hc
        subst hf
        subst hc
        simp only []
        split_ifs <;>
          first
            | exact ⟨rfl, rfl, rfl, rfl, rfl⟩
            | simp_all

/-- Closed instance of C4: the angle editor at 180° (its maximum when
wraparound is off) rolled up by one degree, and the concrete time state
rolled past its max limit. -/
theorem roll_reject_out_of_range_witness :
    (Angle.roll angleStW2 1 3 true).intAngle = 180 ∧
    (Angle.roll angleStW2 1 3 true).errorFlashed = true ∧
    (TimeEd.roll intOps timeStW2 1 0 true).dateTime = 1000 ∧
    (TimeEd.roll intOps timeStW2 1 0 true).errorFlashed = true := by
  have ha := roll_reject_out_of_range.1 angleStW2 1 3 rfl rfl
    (by
      right
      have hcand : Angle.rollCand angleStW2 1 3 = 181 := by decide
      rw [hcand]
      norm_num [Angle.maxAngle, angleStW2, angleStW])
  have ht := roll_reject_out_of_range.2 ℤ intOps timeStW2 1 0 .SECOND 10
    (by decide) (by decide) rfl
    (by
      unfold TimeEd.rollOutOfBounds
      right; left
      decide)
  exact ⟨ha.1, ha.2.2.1, ht.1, ht.2.2.1⟩

/-- The `change` computation only ever touches `flipSign`. -/
theorem Angle.rollChangeState_signIndex (st : Angle.AState) (sgn sel : ℤ) :
    (Angle.rollChangeState st sgn sel).1.signIndex = st.signIndex := by
  unfold Angle.rollChangeState
  split_ifs <;> rfl

theorem Angle.rollChangeState_compassIndex (st : Angle.AState) (sgn sel : ℤ) :
    (Angle.rollChangeState st sgn sel).1.compassIndex = st.compassIndex := by
  unfold Angle.rollChangeState
  split_ifs <;> rfl

theorem Angle.rollChangeState_wrapAround (st : Angle.AState) (sgn sel : ℤ) :
    (Angle.rollChangeState st sgn sel).1.wrapAround = st.wrapAround := by
  unfold Angle.rollChangeState
  split_ifs <;> rfl

theorem Angle.maxAngle_fst (st : Angle.AState) (sgn sel : ℤ) :
    Angle.maxAngle (Angle.rollChangeState st sgn sel).1 = Angle.maxAngle st := by
  rcases Angle.rollChangeState_fst st sgn sel with h | h <;> rw [h]
  exact Angle.maxAngle_set_flipSign st _

/-- `rollFinish` with `updateAngle = true` and a nonzero change commits
`intAngle2` through `setIntAngle` and clears `flipSign`, leaving the
warning flag as it found it. -/
theorem Angle.rollFinish_commit (st : Angle.AState) (sgn change x : ℤ)
    (hch : change ≠ 0) :
    (Angle.rollFinish st sgn true change x).intAngle = x ∧
    (Angle.rollFinish st sgn true change x).warningFlashed =
      st.warningFlashed ∧
    (Angle.rollFinish st sgn true change x).flipSign = false := by
  unfold Angle.rollFinish
  rw [if_pos ⟨rfl, hch⟩]
  exact ⟨Angle.setIntAngle_intAngle _ _ _, Angle.setIntAngle_warning _ _ _, rfl⟩

/-- A signed wraparound angle editor at divisor 1 and the committed angle
at 100 degrees. -/
def angleStW3 : Angle.AState :=
  { angleStW with wrapAround := true, intAngle := 100 }

/-- **C3.** For an angle editor with wraparound enabled over the signed
range [-180, 180) (a sign or compass token, three integer degree digits,
no explicit min/max), committing a roll whose unwrapped candidate
(`rollCand`, in internal units of 1/angleDivisor degree) exceeds the
maximum produces a committed value congruent to the candidate modulo 360
degrees (360 * angleDivisor internal units), landing back inside
[-180, 180) degrees, and the warning signal fires. -/
theorem roll_wraparound_congruence (st : Angle.AState) (sgn sel : ℤ)
    (hwrap : st.wrapAround = true)
    (hsign : 0 ≤ st.signIndex ∨ 0 ≤ st.compassIndex)
    (hmin : st.minOpt = none) (hmax : st.maxOpt = none)
    (hld : st.leftDigits = 3)
    (hdivL : 1 ≤ st.angleDivisor) (hdivU : st.angleDivisor ≤ 2 ^ 40)
    (hch : (Angle.rollChangeState st sgn sel).2 ≠ 0)
    (hoob : (Angle.rollCand st sgn sel : ℚ) / (st.angleDivisor : ℚ) >
      Angle.maxAngle st) :
    (Angle.roll st sgn sel true).intAngle % (360 * st.angleDivisor) =
      Angle.rollCand st sgn sel % (360 * st.angleDivisor) ∧
    -(180 * st.angleDivisor) ≤ (Angle.roll st sgn sel true).intAngle ∧
    (Angle.roll st sgn sel true).intAngle < 180 * st.angleDivisor ∧
    (Angle.roll st sgn sel true).warningFlashed = true := by
  have hdQ : (1 : ℚ) ≤ (st.angleDivisor : ℚ) := by exact_mod_cast hdivL
  have hdQU : (st.angleDivisor : ℚ) ≤ 2 ^ 40 := by exact_mod_cast hdivU
  have hE : Angle.EPS1000 = 1000 * (1 / 2 ^ 52) := rfl
  have hma : Angle.maxAngle st = 180 - Angle.EPS1000 := by
    simp only [Angle.maxAngle, hmax]
    rw [if_neg (by rcases hsign with h | h <;> omega), if_neg (by omega),
      if_pos hwrap]
  have hKey : jsCeil (Angle.maxAngle st * (st.angleDivisor : ℚ) * 2) =
      360 * st.angleDivisor := by
    rw [hma]
    unfold jsCeil
    rw [Int.ceil_eq_iff]
    constructor
    · rw [hE]
      push_cast
      linarith [hdQU]
    · rw [hE]
      push_cast
      linarith [hdQ]
  have hns : ¬((Angle.rollChangeState st sgn sel).1.signIndex < 0 ∧
      (Angle.rollChangeState st sgn sel).1.compassIndex < 0) := by
    rw [Angle.rollChangeState_signIndex, Angle.rollChangeState_compassIndex]
    rcases hsign with h | h <;> omega
  have hW : Angle.rollWrapped st sgn sel =
      tmod2 (Angle.rollCand st sgn sel) (360 * st.angleDivisor) := by
    unfold Angle.rollWrapped
    rw [if_neg hns, Angle.maxAngle_fst, hKey]
  have hcond : (Angle.rollCand st sgn sel : ℚ) / (st.angleDivisor : ℚ) <
      Angle.minAngle (Angle.rollChangeState st sgn sel).1 ∨
      (Angle.rollCand st sgn sel : ℚ) / (st.angleDivisor : ℚ) >
      Angle.maxAngle (Angle.rollChangeState st sgn sel).1 :=
    Or.inr (by rw [Angle.maxAngle_fst]; exact hoob)
  have hwr : (Angle.rollChangeState st sgn sel).1.wrapAround = true := by
    rw [Angle.rollChangeState_wrapAround]; exact hwrap
  have hroll : Angle.roll st sgn sel true =
      Angle.rollFinish
        (Angle.warningFlash (Angle.rollChangeState st sgn sel).1) sgn true
        (Angle.rollChangeState st sgn sel).2 (Angle.rollWrapped st sgn sel) := by
    unfold Angle.roll
    rw [if_pos hcond, if_pos hwr, if_pos rfl]
  have hcomm := Angle.rollFinish_commit
    (Angle.warningFlash (Angle.rollChangeState st sgn sel).1) sgn
    (Angle.rollChangeState st sgn sel).2 (Angle.rollWrapped st sgn sel) hch
  have hpos : (0 : ℤ) < 360 * st.angleDivisor := by omega
  have hr := tmod2_range (Angle.rollCand st sgn sel)
    (360 * st.angleDivisor) hpos
  refine ⟨?_, ?_, ?_, ?_⟩
  · rw [hroll, hcomm.1, hW]
    exact tmod2_emod _ _
  · rw [hroll, hcomm.1, hW]
    omega
  · rw [hroll, hcomm.1, hW]
    omega
  · rw [hroll, hcomm.2.1]
    rfl

/-- Closed instance of C3: the wraparound editor at 100 degrees rolled up
on the hundreds digit lands at -160 degrees, congruent to 200 mod 360,
with the warning flag raised. -/
theorem roll_wraparound_congruence_witness :
    (Angle.roll angleStW3 1 1 true).intAngle % (360 * angleStW3.angleDivisor) =
      Angle.rollCand angleStW3 1 1 % (360 * angleStW3.angleDivisor) ∧
    -(180 * angleStW3.angleDivisor) ≤ (Angle.roll angleStW3 1 1 true).intAngle ∧
    (Angle.roll angleStW3 1 1 true).intAngle < 180 * angleStW3.angleDivisor ∧
    (Angle.roll angleStW3 1 1 true).warningFlashed = true := by
  have hcand : Angle.rollCand angleStW3 1 1 = 200 := by decide
  exact roll_wraparound_congruence angleStW3 1 1 rfl (Or.inl (by decide))
    rfl rfl rfl (by decide) (by decide) (by decide)
    (by
      rw [hcand]
      norm_num [Angle.maxAngle, Angle.EPS1000, angleStW3, angleStW])

/-- Positions below the written digit block are untouched by the
`setDigits` loop. -/
theorem setDigitsLoop_get?_lt (items : List Item) (index count : ℕ) (v : ℤ)
    (f : Slot) (j : ℕ) (hj : j < index) :
    (setDigitsLoop items index count v f).get? j = items.get? j := by
  induction count generalizing items v with
  | zero => rfl
  | succ n ih =>
      rw [setDigitsLoop, ih _ _]
      unfold writeSlot
      rw [if_pos (by positivity)]
      have h2 : ((index : ℤ) + (n : ℤ)).toNat = index + n := by omega
      rw [h2, modifyNth_get?_ne _ _ _ _ (by omega)]

/-- `setDigits` only writes inside `[index, index + count)` (and writes
nothing at all for a negative index). -/
theorem setDigits_get?_outside (items : List Item) (index : ℤ) (count : ℕ)
    (v : ℤ) (f : Slot) (j : ℕ)
    (hj : index < 0 ∨ (j : ℤ) < index ∨ index + count ≤ (j : ℤ)) :
    (setDigits items index count v f).get? j = items.get? j := by
  unfold setDigits
  split_ifs with h
  · rfl
  · rcases hj with h1 | h1 | h1
    · omega
    · exact setDigitsLoop_get?_lt _ _ _ _ _ _ (by omega)
    · exact setDigitsLoop_get?_ge _ _ _ _ _ _ (by omega)

theorem setDigits_length (items : List Item) (index : ℤ) (count : ℕ) (v : ℤ)
    (f : Slot) : (setDigits items index count v f).length = items.length := by
  unfold setDigits
  split_ifs
  · rfl
  · exact setDigitsLoop_length _ _ _ _ _

theorem Angle.readSlotVal_setDigits_outside (items : List Item) (index : ℤ)
    (count : ℕ) (v : ℤ) (f : Slot) (i : ℤ) (s : Slot)
    (hj : index < 0 ∨ i < index ∨ index + count ≤ i) :
    Angle.readSlotVal (setDigits items index count v f) i s =
      Angle.readSlotVal items i s := by
  unfold Angle.readSlotVal
  split_ifs with h
  · rw [setDigits_get?_outside]
    rcases hj with h1 | h1 | h1
    · exact Or.inl h1
    · right; left; omega
    · right; right; omega
  · rfl

/-- Reading back the slot just written. -/
theorem Angle.readSlotVal_writeSlot_eq (items : List Item) (i : ℤ) (s : Slot)
    (v : IVal) (h0 : 0 ≤ i) (hlen : i.toNat < items.length) :
    Angle.readSlotVal (writeSlot items i s v) i s = some v := by
  unfold Angle.readSlotVal writeSlot
  rw [if_pos h0, if_pos h0]
  have hmod := modifyNth_get?_eq (fun it => it.setSlot s v) items i.toNat hlen
  rw [hmod]
  have hit : items.get? i.toNat = some (items.get ⟨i.toNat, hlen⟩) :=
    List.get?_eq_get hlen
  rw [hit]
  cases s <;> rfl

theorem Angle.writeAngleDigits_length (st : Angle.AState)
    (items0 : List Item) (a : ℤ) (f : Slot) :
    (Angle.writeAngleDigits st items0 a f).length = items0.length := by
  unfold Angle.writeAngleDigits
  rw [setDigits_length, setDigits_length, setDigits_length, setDigits_length]

/-- The four digit-block writes of `updateDigits` leave every position
outside the four blocks untouched. -/
theorem Angle.readSlotVal_writeAngleDigits_outside (st : Angle.AState)
    (items0 : List Item) (a : ℤ) (f : Slot) (i : ℤ) (s : Slot)
    (hD : st.degreeIndex < 0 ∨ i < st.degreeIndex ∨
      st.degreeIndex + (st.leftDigits.toNat : ℤ) ≤ i)
    (hM : st.minuteIndex < 0 ∨ i < st.minuteIndex ∨ st.minuteIndex + 2 ≤ i)
    (hS : st.secondIndex < 0 ∨ i < st.secondIndex ∨ st.secondIndex + 2 ≤ i)
    (hF : st.decimalIndex < 0 ∨ i < st.decimalIndex ∨
      st.decimalIndex + (st.decimals : ℤ) ≤ i) :
    Angle.readSlotVal (Angle.writeAngleDigits st items0 a f) i s =
      Angle.readSlotVal items0 i s := by
  unfold Angle.writeAngleDigits
  rw [Angle.readSlotVal_setDigits_outside _ _ _ _ _ _ _ hF,
    Angle.readSlotVal_setDigits_outside _ _ _ _ _ _ _ hS,
    Angle.readSlotVal_setDigits_outside _ _ _ _ _ _ _ hM,
    Angle.readSlotVal_setDigits_outside _ _ _ _ _ _ _ hD]

/-- With the current value in range, selecting the sign or compass token
routes `roll`'s change computation into the toggle branch. -/
theorem Angle.rollChangeState_sign (st : Angle.AState) (sgn sel : ℤ)
    (hoor : st.outOfRange = false)
    (hsel : sel = st.signIndex ∨ sel = st.compassIndex) :
    Angle.rollChangeState st sgn sel =
      ({ st with flipSign := st.intAngle = 0 }, -sgn * st.intAngle * 2) := by
  unfold Angle.rollChangeState
  rw [if_neg (by simp [hoor]), if_neg (by simp [hoor]), if_pos hsel]

/-- `angleStW` with the committed angle at zero. -/
def angleSt0 : Angle.AState := { angleStW with intAngle := 0 }

/-- **C5.** Rolling the sign/compass token of an in-range angle: (1) the
computed change is `-direction * current * 2`; (2) for a nonzero current
value this negates the committed magnitude, and the pending-flip flag ends
the roll cleared; (3/4) when the magnitude is exactly zero the negation
has no numeric effect, but the `flipSign` flag set by the change
computation makes the rendering toggle the sign (resp. compass) token in
place once, and the flag is cleared at the end of the roll. -/
theorem roll_sign_compass_flip :
    (∀ (st : Angle.AState) (sgn sel : ℤ), st.outOfRange = false →
      (sel = st.signIndex ∨ sel = st.compassIndex) →
      (Angle.rollChangeState st sgn sel).2 = -sgn * st.intAngle * 2) ∧
    (∀ (st : Angle.AState) (sgn sel : ℤ), st.outOfRange = false →
      (sel = st.signIndex ∨ sel = st.compassIndex) →
      (sgn = 1 ∨ sgn = -1) → st.intAngle ≠ 0 →
      Angle.minAngle st ≤ -(st.intAngle : ℚ) / (st.angleDivisor : ℚ) →
      -(st.intAngle : ℚ) / (st.angleDivisor : ℚ) ≤ Angle.maxAngle st →
      (Angle.roll st sgn sel true).intAngle = -st.intAngle ∧
      (Angle.roll st sgn sel true).flipSign = false) ∧
    (∀ (st : Angle.AState) (sgn sel : ℤ), st.outOfRange = false →
      (sel = st.signIndex ∨ sel = st.compassIndex) → st.intAngle = 0 →
      Angle.minAngle st ≤ 0 → 0 ≤ Angle.maxAngle st →
      0 ≤ st.signIndex → st.signIndex.toNat < st.items.length →
      (st.degreeIndex < 0 ∨ st.signIndex < st.degreeIndex ∨
        st.degreeIndex + (st.leftDigits.toNat : ℤ) ≤ st.signIndex) →
      (st.minuteIndex < 0 ∨ st.signIndex < st.minuteIndex ∨
        st.minuteIndex + 2 ≤ st.signIndex) →
      (st.secondIndex < 0 ∨ st.signIndex < st.secondIndex ∨
        st.secondIndex + 2 ≤ st.signIndex) →
      (st.decimalIndex < 0 ∨ st.signIndex < st.decimalIndex ∨
        st.decimalIndex + (st.decimals : ℤ) ≤ st.signIndex) →
      Angle.readSlotVal (Angle.roll st sgn sel true).items st.signIndex
          Slot.value =
        some (.str (if Angle.readSlotVal st.items st.signIndex Slot.value =
            some (.str "-") then "+" else "-")) ∧
      (Angle.roll st sgn sel true).flipSign = false) ∧
    (∀ (st : Angle.AState) (sgn sel : ℤ), st.outOfRange = false →
      (sel = st.signIndex ∨ sel = st.compassIndex) → st.intAngle = 0 →
      Angle.minAngle st ≤ 0 → 0 ≤ Angle.maxAngle st →
      st.signIndex < 0 → 0 ≤ st.compassIndex →
      st.compassIndex.toNat < st.items.length →
      (st.degreeIndex < 0 ∨ st.compassIndex < st.degreeIndex ∨
        st.degreeIndex + (st.leftDigits.toNat : ℤ) ≤ st.compassIndex) →
      (st.minuteIndex < 0 ∨ st.compassIndex < st.minuteIndex ∨
        st.minuteIndex + 2 ≤ st.compassIndex) →
      (st.secondIndex < 0 ∨ st.compassIndex < st.secondIndex ∨
        st.secondIndex + 2 ≤ st.compassIndex) →
      (st.decimalIndex < 0 ∨ st.compassIndex < st.decimalIndex ∨
        st.decimalIndex + (st.decimals : ℤ) ≤ st.compassIndex) →
      Angle.readSlotVal (Angle.roll st sgn sel true).items st.compassIndex
          Slot.value =
        some (.str (if Angle.readSlotVal st.items st.compassIndex Slot.value =
            some (.str (Angle.cpt st 0)) then Angle.cpt st 1
          else Angle.cpt st 0)) ∧
      (Angle.roll st sgn sel true).flipSign = false) := by
  refine ⟨?_, ?_, ?_, ?_⟩
  · intro st sgn sel hoor hsel
    rw [Angle.rollChangeState_sign st sgn sel hoor hsel]
  · intro st sgn sel hoor hsel hsgn hz hminh hmaxh
    have hrcs := Angle.rollChangeState_sign st sgn sel hoor hsel
    have hch2 : (Angle.rollChangeState st sgn sel).2 =
        -sgn * st.intAngle * 2 := by rw [hrcs]
    have hcand : Angle.rollCand st sgn sel = -st.intAngle := by
      unfold Angle.rollCand
      rw [hch2]
      rcases hsgn with h | h <;> subst h <;> ring
    have hfst2 : (Angle.rollChangeState st sgn sel).1 =
        { st with flipSign := st.intAngle = 0 } := by rw [hrcs]
    have hnc : ¬((Angle.rollCand st sgn sel : ℚ) / (st.angleDivisor : ℚ) <
        Angle.minAngle (Angle.rollChangeState st sgn sel).1 ∨
        (Angle.rollCand st sgn sel : ℚ) / (st.angleDivisor : ℚ) >
        Angle.maxAngle (Angle.rollChangeState st sgn sel).1) := by
      rw [hcand, hfst2, Angle.minAngle_set_flipSign,
        Angle.maxAngle_set_flipSign]
      push_neg
      constructor
      · push_cast
        exact hminh
      · push_cast
        exact hmaxh
    have hchn : (Angle.rollChangeState st sgn sel).2 ≠ 0 := by
      rw [hch2]
      rcases hsgn with h | h <;> subst h <;> omega
    have hroll2 : Angle.roll st sgn sel true =
        Angle.rollFinish (Angle.rollChangeState st sgn sel).1 sgn true
          (Angle.rollChangeState st sgn sel).2
          (Angle.rollCand st sgn sel) := by
      unfold Angle.roll
      rw [if_neg hnc]
    have hcomm := Angle.rollFinish_commit
      (Angle.rollChangeState st sgn sel).1 sgn
      (Angle.rollChangeState st sgn sel).2 (Angle.rollCand st sgn sel) hchn
    exact ⟨by rw [hroll2, hcomm.1, hcand],
      by rw [hroll2]; exact hcomm.2.2⟩
  · intro st sgn sel hoor hsel hz hminh hmaxh hsi hlen hD hM hS hF
    have hrcs := Angle.rollChangeState_sign st sgn sel hoor hsel
    have hch0 : (Angle.rollChangeState st sgn sel).2 = 0 := by
      rw [hrcs]
      show -sgn * st.intAngle * 2 = 0
      rw [hz]; ring
    have hcand0 : Angle.rollCand st sgn sel = 0 := by
      unfold Angle.rollCand
      rw [hch0, hz]; ring
    have hfst : (Angle.rollChangeState st sgn sel).1 =
        { st with flipSign := st.intAngle = 0 } := by rw [hrcs]
    have hb : (decide (st.intAngle = 0)) = true := by simp [hz]
    have hfs2 : (Angle.rollChangeState st sgn sel).1 =
        { st with flipSign := true } := by rw [hfst, hb]
    have hnc : ¬((Angle.rollCand st sgn sel : ℚ) / (st.angleDivisor : ℚ) <
        Angle.minAngle (Angle.rollChangeState st sgn sel).1 ∨
        (Angle.rollCand st sgn sel : ℚ) / (st.angleDivisor : ℚ) >
        Angle.maxAngle (Angle.rollChangeState st sgn sel).1) := by
      rw [hcand0, hfs2, Angle.minAngle_set_flipSign,
        Angle.maxAngle_set_flipSign]
      push_neg
      simp only [Int.cast_zero, zero_div]
      exact ⟨hminh, hmaxh⟩
    have hroll : Angle.roll st sgn sel true =
        Angle.rollFinish (Angle.rollChangeState st sgn sel).1 sgn true
          (Angle.rollChangeState st sgn sel).2
          (Angle.rollCand st sgn sel) := by
      unfold Angle.roll
      rw [if_neg hnc]
    have hfin : Angle.roll st sgn sel true =
        { Angle.updateDigits { st with flipSign := true } (some 0) 0 (-1) with
          flipSign := false } := by
      rw [hroll]
      unfold Angle.rollFinish
      rw [if_neg (by simp [hch0]), if_pos rfl, hfs2, hcand0]
    have hcnd2 : ¬(Angle.angleOf { st with flipSign := true } (some 0) <
        Angle.minAngle { st with flipSign := true } ∨
        Angle.angleOf { st with flipSign := true } (some 0) >
        Angle.maxAngle { st with flipSign := true }) := by
      rw [Angle.minAngle_set_flipSign, Angle.maxAngle_set_flipSign]
      unfold Angle.angleOf
      push_neg
      simp only [Option.getD_some, Int.cast_zero, zero_div]
      exact ⟨hminh, hmaxh⟩
    have hitems : (Angle.updateDigits { st with flipSign := true } (some 0) 0
        (-1)).items =
        Angle.renderDigits { st with flipSign := true } st.items 0
          Slot.value := by
      unfold Angle.updateDigits
      rw [if_neg hcnd2]
      rfl
    have hrd : Angle.renderDigits { st with flipSign := true } st.items 0
        Slot.value =
        writeSlot
          (Angle.writeAngleDigits { st with flipSign := true } st.items 0
            Slot.value) st.signIndex Slot.value
          (.str (if Angle.readSlotVal
              (Angle.writeAngleDigits { st with flipSign := true } st.items 0
                Slot.value) st.signIndex Slot.value = some (.str "-")
            then "+" else "-")) := by
      unfold Angle.renderDigits
      simp only [show ({ st with flipSign := true } : Angle.AState).signIndex =
          st.signIndex from rfl,
        show ({ st with flipSign := true } : Angle.AState).flipSign = true from
          rfl]
      rw [if_pos hsi, if_pos ⟨trivial, trivial⟩]
    constructor
    · rw [hfin]
      show Angle.readSlotVal (Angle.updateDigits { st with flipSign := true }
          (some 0) 0 (-1)).items st.signIndex Slot.value = _
      rw [hitems, hrd]
      have hpres : Angle.readSlotVal
          (Angle.writeAngleDigits { st with flipSign := true } st.items 0
            Slot.value) st.signIndex Slot.value =
          Angle.readSlotVal st.items st.signIndex Slot.value :=
        Angle.readSlotVal_writeAngleDigits_outside _ _ _ _ _ _ hD hM hS hF
      rw [hpres]
      have hlenW : st.signIndex.toNat <
          (Angle.writeAngleDigits { st with flipSign := true } st.items 0
            Slot.value).length := by
        rw [Angle.writeAngleDigits_length]; exact hlen
      exact Angle.readSlotVal_writeSlot_eq _ _ _ _ hsi hlenW
    · rw [hfin]
  · intro st sgn sel hoor hsel hz hminh hmaxh hsneg hci hlen hD hM hS hF
    have hrcs := Angle.rollChangeState_sign st sgn sel hoor hsel
    have hch0 : (Angle.rollChangeState st sgn sel).2 = 0 := by
      rw [hrcs]
      show -sgn * st.intAngle * 2 = 0
      rw [hz]; ring
    have hcand0 : Angle.rollCand st sgn sel = 0 := by
      unfold Angle.rollCand
      rw [hch0, hz]; ring
    have hfst : (Angle.rollChangeState st sgn sel).1 =
        { st with flipSign := st.intAngle = 0 } := by rw [hrcs]
    have hb : (decide (st.intAngle = 0)) = true := by simp [hz]
    have hfs2 : (Angle.rollChangeState st sgn sel).1 =
        { st with flipSign := true } := by rw [hfst, hb]
    have hnc : ¬((Angle.rollCand st sgn sel : ℚ) / (st.angleDivisor : ℚ) <
        Angle.minAngle (Angle.rollChangeState st sgn sel).1 ∨
        (Angle.rollCand st sgn sel : ℚ) / (st.angleDivisor : ℚ) >
        Angle.maxAngle (Angle.rollChangeState st sgn sel).1) := by
      rw [hcand0, hfs2, Angle.minAngle_set_flipSign,
        Angle.maxAngle_set_flipSign]
      push_neg
      simp only [Int.cast_zero, zero_div]
      exact ⟨hminh, hmaxh⟩
    have hroll : Angle.roll st sgn sel true =
        Angle.rollFinish (Angle.rollChangeState st sgn sel).1 sgn true
          (Angle.rollChangeState st sgn sel).2
          (Angle.rollCand st sgn sel) := by
      unfold Angle.roll
      rw [if_neg hnc]
    have hfin : Angle.roll st sgn sel true =
        { Angle.updateDigits { st with flipSign := true } (some 0) 0 (-1) with
          flipSign := false } := by
      rw [hroll]
      unfold Angle.rollFinish
      rw [if_neg (by simp [hch0]), if_pos rfl, hfs2, hcand0]
    have hcnd2 : ¬(Angle.angleOf { st with flipSign := true } (some 0) <
        Angle.minAngle { st with flipSign := true } ∨
        Angle.angleOf { st with flipSign := true } (some 0) >
        Angle.maxAngle { st with flipSign := true }) := by
      rw [Angle.minAngle_set_flipSign, Angle.maxAngle_set_flipSign]
      unfold Angle.angleOf
      push_neg
      simp only [Option.getD_some, Int.cast_zero, zero_div]
      exact ⟨hminh, hmaxh⟩
    have hitems : (Angle.updateDigits { st with flipSign := true } (some 0) 0
        (-1)).items =
        Angle.renderDigits { st with flipSign := true } st.items 0
          Slot.value := by
      unfold Angle.updateDigits
      rw [if_neg hcnd2]
      rfl
    have hrd : Angle.renderDigits { st with flipSign := true } st.items 0
        Slot.value =
        writeSlot
          (Angle.writeAngleDigits { st with flipSign := true } st.items 0
            Slot.value) st.compassIndex Slot.value
          (.str (if Angle.readSlotVal
              (Angle.writeAngleDigits { st with flipSign := true } st.items 0
                Slot.value) st.compassIndex Slot.value =
              some (.str (Angle.cpt { st with flipSign := true } 0))
            then Angle.cpt { st with flipSign := true } 1
            else Angle.cpt { st with flipSign := true } 0)) := by
      unfold Angle.renderDigits
      simp only [show ({ st with flipSign := true } : Angle.AState).signIndex =
          st.signIndex from rfl,
        show ({ st with flipSign := true } : Angle.AState).compassIndex =
          st.compassIndex from rfl,
        show ({ st with flipSign := true } : Angle.AState).flipSign = true from
          rfl]
      rw [if_neg (by omega), if_pos hci, if_pos ⟨trivial, trivial⟩]
    constructor
    · rw [hfin]
      show Angle.readSlotVal (Angle.updateDigits { st with flipSign := true }
          (some 0) 0 (-1)).items st.compassIndex Slot.value = _
      rw [hitems, hrd]
      have hpres : Angle.readSlotVal
          (Angle.writeAngleDigits { st with flipSign := true } st.items 0
            Slot.value) st.compassIndex Slot.value =
          Angle.readSlotVal st.items st.compassIndex Slot.value :=
        Angle.readSlotVal_writeAngleDigits_outside _ _ _ _ _ _ hD hM hS hF
      rw [hpres]
      have hlenW : st.compassIndex.toNat <
          (Angle.writeAngleDigits { st with flipSign := true } st.items 0
            Slot.value).length := by
        rw [Angle.writeAngleDigits_length]; exact hlen
      exact Angle.readSlotVal_writeSlot_eq _ _ _ _ hci hlenW
    · rw [hfin]

/-- Closed instance of C5: rolling the sign of `angleStW` (at 45°) yields
change -90 and commits -45° with the flip flag clear; rolling the sign of
the same editor at 0° toggles the "+" token to "-" and ends with the flip
flag clear. -/
theorem roll_sign_compass_flip_witness :
    (Angle.rollChangeState angleStW 1 0).2 = -1 * angleStW.intAngle * 2 ∧
    ((Angle.roll angleStW 1 0 true).intAngle = -angleStW.intAngle ∧
      (Angle.roll angleStW 1 0 true).flipSign = false) ∧
    (Angle.readSlotVal (Angle.roll angleSt0 1 0 true).items angleSt0.signIndex
        Slot.value =
      some (.str (if Angle.readSlotVal angleSt0.items angleSt0.signIndex
          Slot.value = some (.str "-") then "+" else "-")) ∧
      (Angle.roll angleSt0 1 0 true).flipSign = false) := by
  refine ⟨roll_sign_compass_flip.1 angleStW 1 0 rfl (Or.inl rfl),
    roll_sign_compass_flip.2.1 angleStW 1 0 rfl (Or.inl rfl) (Or.inl rfl)
      (by decide) (by norm_num [Angle.minAngle, angleStW])
      (by norm_num [Angle.maxAngle, Angle.EPS1000, angleStW]),
    roll_sign_compass_flip.2.2.1 angleSt0 1 0 rfl (Or.inl rfl) rfl
      (by norm_num [Angle.minAngle, angleSt0, angleStW])
      (by norm_num [Angle.maxAngle, Angle.EPS1000, angleSt0, angleStW])
      (by decide) (by decide) (by decide) (by decide)
      (by decide) (by decide)⟩

/-- `angleStW` with an explicit maximum of 90 degrees. -/
def angleStP : Angle.AState := { angleStW with maxOpt := some 90 }

/-- C7 counterexample: pasting a parseable but out-of-range value (95,
against max 90) into the angle editor does not clamp to the bound with a
warning - it error-flashes and commits nothing: the composite value stays
45, no warning fires, no change is reported. -/
theorem paste_clamp_counterexample :
    (Angle.applyPastedText angleStP (some 95)).intAngle = 45 ∧
    (Angle.applyPastedText angleStP (some 95)).errorFlashed = true ∧
    (Angle.applyPastedText angleStP (some 95)).warningFlashed = false ∧
    (Angle.applyPastedText angleStP (some 95)).reported = false := by
  have h : Angle.applyPastedText angleStP (some 95) =
      Angle.errorFlash angleStP := by
    simp only [Angle.applyPastedText]
    rw [if_pos (Or.inr (by norm_num [Angle.maxAngle, angleStP, angleStW]))]
  rw [h]
  exact ⟨rfl, rfl, rfl, rfl⟩

/-- **C7 (amended).** Paste dispatch in both editors.  Angle editor: a
failed parse error-flashes and changes nothing; a parsed value outside
[minAngle, maxAngle] is rejected the same way - error flash, no clamp, no
warning, no commit; only an in-range value is committed (via `setValue`).
Time editor: a failed parse error-flashes; a parsed value is committed
as-is - numeric input sets the TAI instant, wall-time input sets the wall
time - with no bounds check, no clamping and no warning. -/
theorem paste_parse_and_bounds :
    (∀ (st : Angle.AState),
      Angle.applyPastedText st none = Angle.errorFlash st) ∧
    (∀ (st : Angle.AState) (v : ℚ),
      v < Angle.minAngle st ∨ v > Angle.maxAngle st →
      Angle.applyPastedText st (some v) = Angle.errorFlash st) ∧
    (∀ (st : Angle.AState) (v : ℚ),
      ¬(v < Angle.minAngle st ∨ v > Angle.maxAngle st) →
      Angle.applyPastedText st (some v) = Angle.setValue st v true) ∧
    (∀ (δ : Type) (ops : TimeEd.DTOps δ) (st : TimeEd.TState δ),
      TimeEd.applyPastedText ops st none = TimeEd.errorFlash st) ∧
    (∀ (δ : Type) (ops : TimeEd.DTOps δ) (st : TimeEd.TState δ) (n : ℤ),
      (TimeEd.applyPastedText ops st (some (.inl n))).dateTime =
        ops.setTaiMillis st.dateTime n ∧
      (TimeEd.applyPastedText ops st (some (.inl n))).warningFlashed =
        st.warningFlashed ∧
      (TimeEd.applyPastedText ops st (some (.inl n))).reported = true) ∧
    (∀ (δ : Type) (ops : TimeEd.DTOps δ) (st : TimeEd.TState δ)
      (w : TimeEd.Wall),
      (TimeEd.applyPastedText ops st (some (.inr w))).dateTime =
        ops.setWall st.dateTime w ∧
      (TimeEd.applyPastedText ops st (some (.inr w))).warningFlashed =
        st.warningFlashed ∧
      (TimeEd.applyPastedText ops st (some (.inr w))).reported = true) := by
  refine ⟨fun st => rfl, ?_, ?_, fun δ ops st => rfl, ?_, ?_⟩
  · intro st v h
    simp only [Angle.applyPastedText]
    rw [if_pos h]
  · intro st v h
    simp only [Angle.applyPastedText]
    rw [if_neg h]
  · intro δ ops st n
    have h := TimeEd.td_updateDigits_frame ops
      { st with
          dateTime := ops.setTaiMillis st.dateTime n,
          outOfRange := false,
          reported := true }
      none 0 (-1)
    exact ⟨h.1, h.2.2.2, h.2.1⟩
  · intro δ ops st w
    have h := TimeEd.td_updateDigits_frame ops
      { st with
          dateTime := ops.setWall st.dateTime w,
          outOfRange := false,
          reported := true }
      none 0 (-1)
    exact ⟨h.1, h.2.2.2, h.2.1⟩

/-- Closed instance of C7: the out-of-range paste 95 (max 90) is rejected
with an error flash, and the in-range paste 0 is committed. -/
theorem paste_parse_and_bounds_witness :
    Angle.applyPastedText angleStP (some 95) = Angle.errorFlash angleStP ∧
    Angle.applyPastedText angleStP (some 0) =
      Angle.setValue angleStP 0 true := by
  exact ⟨paste_parse_and_bounds.2.1 angleStP 95
      (Or.inr (by norm_num [Angle.maxAngle, angleStP, angleStW])),
    paste_parse_and_bounds.2.2.1 angleStP 0
      (by norm_num [Angle.minAngle, Angle.maxAngle, angleStP, angleStW])⟩

end TubularWidgets
